import Mathlib

/-!
Verification of the argument-parsing / URL-building core of
`scripts/generate-trophy-svg.ts` (a Deno CLI that turns `--url`/`--username`
plus optional `--query`/`--output` flags into one request dispatched to an
in-process handler and writes the returned SVG to disk).

The development shallowly embeds the script's functions
(`findMissingValues`, `parseArgs`, `buildUrl`, `resolveOutputPath`, `run`)
as executable Lean definitions.  The script leans on three external
libraries that are not part of the repository's sources: the Deno std
`flags` parser (a minimist-style CLI tokenizer), the WHATWG `URL` /
`URLSearchParams` runtime classes, and the std `path.dirname` helper.
Those pieces are modelled from the specification document, and each such
definition is marked `Modelled from the spec:` in its doc comment.

JavaScript strings here are Lean `String`s (sequences of unicode scalar
values).  JavaScript truthiness of an optional string (`undefined` and
`""` are falsy) is `strTruthy` below.
-/

/-! ## application/x-www-form-urlencoded encoding

`URLSearchParams` serializes parameters with the urlencoded serializer:
each key/value is UTF-8 encoded, bytes that are ASCII alphanumeric or one
of `*`, `-`, `.`, `_` are kept, `0x20` becomes `+`, every other byte
becomes `%XX` with uppercase hex.  Parsing splits on `&`, splits each
piece at the first `=`, turns `+` into spaces, percent-decodes, and
UTF-8-decodes the resulting bytes.  These definitions model that codec;
they are part of the `Modelled from the spec:` boundary for the external
URL machinery. -/

/-- UTF-8 encoding of one unicode scalar value, as a list of byte values. -/
def utf8Encode (c : Char) : List Nat :=
  let n := c.toNat
  if n < 128 then [n]
  else if n < 2048 then [192 + n / 64, 128 + n % 64]
  else if n < 65536 then [224 + n / 4096, 128 + (n / 64) % 64, 128 + n % 64]
  else [240 + n / 262144, 128 + (n / 4096) % 64, 128 + (n / 64) % 64, 128 + n % 64]

/-- UTF-8 encoding of a character list, as a flat list of byte values. -/
def utf8EncodeList : List Char → List Nat
  | [] => []
  | c :: cs => utf8Encode c ++ utf8EncodeList cs

/-- Is `b` a UTF-8 continuation byte? -/
def isCont (b : Nat) : Bool := 128 ≤ b && b < 192

/-- One-pass UTF-8 decoder: `need` pending continuation bytes, `acc` the
scalar value accumulated so far.  Malformed input produces U+FFFD; only
the behaviour on well-formed encoder output matters for the theorems
below. -/
def utf8DecodeGo (need acc : Nat) : List Nat → List Char
  | [] => if need = 0 then [] else ['�']
  | b :: bs =>
    if need = 0 then
      if b < 128 then Char.ofNat b :: utf8DecodeGo 0 0 bs
      else if b < 192 then '�' :: utf8DecodeGo 0 0 bs
      else if b < 224 then utf8DecodeGo 1 (b - 192) bs
      else if b < 240 then utf8DecodeGo 2 (b - 224) bs
      else utf8DecodeGo 3 (b - 240) bs
    else
      if isCont b then
        if need = 1 then Char.ofNat (acc * 64 + (b - 128)) :: utf8DecodeGo 0 0 bs
        else utf8DecodeGo (need - 1) (acc * 64 + (b - 128)) bs
      else '�' :: utf8DecodeGo 0 0 bs

/-- UTF-8 decoding of a byte list. -/
def utf8Decode (bs : List Nat) : List Char := utf8DecodeGo 0 0 bs

/-- Bytes kept verbatim by the urlencoded serializer: ASCII alphanumeric
and `*`, `-`, `.`, `_`. -/
def isUrlSafe (b : Nat) : Bool :=
  (48 ≤ b && b ≤ 57) || (65 ≤ b && b ≤ 90) || (97 ≤ b && b ≤ 122) ||
    b = 42 || b = 45 || b = 46 || b = 95

/-- Uppercase hex digit for `n < 16`. -/
def hexDigit (n : Nat) : Char :=
  if n < 10 then Char.ofNat (48 + n) else Char.ofNat (55 + n)

/-- Numeric value of a hex digit character (either case). -/
def hexVal (c : Char) : Nat :=
  if 48 ≤ c.toNat && c.toNat ≤ 57 then c.toNat - 48
  else if 65 ≤ c.toNat && c.toNat ≤ 70 then c.toNat - 55
  else c.toNat - 87

/-- Is `c` an ASCII hex digit (either case)? -/
def isHexChar (c : Char) : Bool :=
  (48 ≤ c.toNat && c.toNat ≤ 57) || (65 ≤ c.toNat && c.toNat ≤ 70) ||
    (97 ≤ c.toNat && c.toNat ≤ 102)

/-- urlencoded serialization of a single byte: space becomes `+`, safe
bytes stay, everything else is percent-escaped. -/
def encodeByte (b : Nat) : List Char :=
  if b = 32 then ['+']
  else if isUrlSafe b then [Char.ofNat b]
  else ['%', hexDigit (b / 16), hexDigit (b % 16)]

/-- urlencoded serialization of a byte list. -/
def encodeBytes : List Nat → List Char
  | [] => []
  | b :: bs => encodeByte b ++ encodeBytes bs

/-- urlencoded serialization of a character list (UTF-8 encode, then
escape each byte). -/
def formEncode (cs : List Char) : List Char := encodeBytes (utf8EncodeList cs)

/-- First phase of urlencoded decoding, as a state machine: `none` is the
initial state, `some none` means a `%` has been read, `some (some h)`
means `%h` has been read with `h` a hex digit.  `+` is space, a complete
`%XX` is a byte, an incomplete escape leaves the `%` (byte 37) literal,
any other character contributes its UTF-8 bytes. -/
def percentDecodeGo (st : Option (Option Char)) : List Char → List Nat
  | [] =>
    match st with
    | none => []
    | some none => [37]
    | some (some h1) => [37, h1.toNat]
  | c :: cs =>
    match st with
    | none =>
      if c = '+' then 32 :: percentDecodeGo none cs
      else if c = '%' then percentDecodeGo (some none) cs
      else utf8Encode c ++ percentDecodeGo none cs
    | some none =>
      if isHexChar c then percentDecodeGo (some (some c)) cs
      else if c = '+' then 37 :: 32 :: percentDecodeGo none cs
      else if c = '%' then 37 :: percentDecodeGo (some none) cs
      else 37 :: (utf8Encode c ++ percentDecodeGo none cs)
    | some (some h1) =>
      if isHexChar c then (hexVal h1 * 16 + hexVal c) :: percentDecodeGo none cs
      else if c = '+' then 37 :: h1.toNat :: 32 :: percentDecodeGo none cs
      else if c = '%' then 37 :: h1.toNat :: percentDecodeGo (some none) cs
      else 37 :: h1.toNat :: (utf8Encode c ++ percentDecodeGo none cs)

/-- Turn an urlencoded character sequence back into bytes. -/
def percentDecodeBytes (cs : List Char) : List Nat := percentDecodeGo none cs

/-- urlencoded decoding of a character list. -/
def formDecode (cs : List Char) : List Char := utf8Decode (percentDecodeBytes cs)

/-! ## Query strings as parameter lists -/

/-- Split a character list on a separator character (like
`String.prototype.split` with a single-character separator: always at
least one group, empty groups preserved). -/
def splitOnChar (sep : Char) : List Char → List (List Char)
  | [] => [[]]
  | c :: cs =>
    if c = sep then [] :: splitOnChar sep cs
    else
      match splitOnChar sep cs with
      | [] => [[c]]
      | g :: gs => (c :: g) :: gs

/-- Split a character list at the first `=`: `(before, some after)` when
an `=` is present, `(all, none)` otherwise. -/
def splitFirstEq : List Char → List Char × Option (List Char)
  | [] => ([], none)
  | c :: cs =>
    if c = '=' then ([], some cs)
    else
      let p := splitFirstEq cs
      (c :: p.1, p.2)

/-- Modelled from the spec: the `URLSearchParams` parser (external WHATWG
runtime class, not part of this repository's sources).  Splits on `&`,
drops empty pieces, splits each piece at the first `=` (missing `=`
means an empty value), and urlencoded-decodes key and value. -/
def parseQS (cs : List Char) : List (String × String) :=
  (splitOnChar '&' cs).filterMap fun p =>
    if p = [] then none
    else
      match splitFirstEq p with
      | (k, some v) => some (⟨formDecode k⟩, ⟨formDecode v⟩)
      | (k, none) => some (⟨formDecode k⟩, "")

/-- urlencoded serialization of one `key=value` pair. -/
def encodePair (kv : String × String) : List Char :=
  formEncode kv.1.data ++ '=' :: formEncode kv.2.data

/-- Modelled from the spec: the `URLSearchParams` serializer — pairs
rendered as `key=value`, joined with `&`, in insertion order. -/
def renderQS : List (String × String) → List Char
  | [] => []
  | [kv] => encodePair kv
  | kv :: kv2 :: rest => encodePair kv ++ '&' :: renderQS (kv2 :: rest)

/-! ## WHATWG URL model

`buildUrl` serializes `new URL("http://localhost/")` with search
parameters, and `resolveOutputPath` parses `options.url` back.  Only the
pieces the script observes are modelled: whether a string parses as a
URL at all, and the query component with its parameters. -/

/-- Characters allowed in a URL scheme after the first (ASCII
alphanumeric and `+`, `-`, `.`). -/
def isSchemeChar (c : Char) : Bool :=
  c.isAlphanum || c = '+' || c = '-' || c = '.'

/-- After the scheme's first letter: keep reading scheme characters until
the `:`; `some rest` is everything after the colon. -/
def schemeRest : List Char → Option (List Char)
  | [] => none
  | c :: cs =>
    if c = ':' then some cs
    else if isSchemeChar c then schemeRest cs
    else none

/-- Modelled from the spec: `new URL(s)` (external WHATWG runtime class).
A string parses when it starts with a scheme — an ASCII letter followed
by scheme characters and a `:`; anything else throws (the script only
relies on the parseable/unparseable distinction).  The result is the
part after the colon. -/
def urlParse (s : String) : Option (List Char) :=
  match s.data with
  | [] => none
  | c :: cs => if c.isAlpha then schemeRest cs else none

/-- The query component of the part after the scheme: cut at the first
`#`, then take what follows the first `?` (empty if there is none). -/
def extractQuery (cs : List Char) : List Char :=
  (((cs.takeWhile fun c => c != '#').dropWhile fun c => c != '?').drop 1)

/-- Modelled from the spec: `new URL(s).searchParams.get("username")`,
with `null` collapsed to `none` as the script's `?? undefined` does. -/
def urlUsernameParam (s : String) : Option String :=
  match urlParse s with
  | none => none
  | some rest =>
    match (parseQS (extractQuery rest)).find? (fun kv => kv.1 == "username") with
    | some kv => some kv.2
    | none => none

/-! ## The script's data model -/

/-- The `Options` record of the script (`help`, optional `url`,
`username`, `query`, `output`, and accumulated `errors`). -/
structure Options where
  help : Bool
  url : Option String := none
  username : Option String := none
  query : Option String := none
  output : Option String := none
  errors : List String
deriving Repr, DecidableEq

/-- JavaScript truthiness of an optional string: `undefined` and `""`
are falsy. -/
def strTruthy : Option String → Bool
  | none => false
  | some s => !s.data.isEmpty

/-- Does the string start with `-` (JavaScript `startsWith("-")`)? -/
def startsDash (s : String) : Bool :=
  match s.data with
  | '-' :: _ => true
  | _ => false

/-- The four value-carrying flags. -/
def valueFlags : List String := ["--url", "--username", "--query", "--output"]

/-- The `Missing value for: <flag>` diagnostic. -/
def missingValueMsg (flag : String) : String := "Missing value for: " ++ flag

/-- How the missing-value scanner treats one token: `stop` is the bare
`--` terminator, `skip` a token it ignores, `inlineEmpty` a value flag whose
inline value is empty (JavaScript `split("=", 2)`: the inline value is
the segment between the first and second `=`), `needsNext` a bare value
flag that wants the following token as its value. -/
inductive FmvAction where
  | stop
  | skip
  | inlineEmpty (flag : String)
  | needsNext (flag : String)
deriving Repr, DecidableEq

/-- Classify one token for the missing-value scan, mirroring the loop
body of the script's `findMissingValues`: only tokens starting with `--`
are looked at, the token is split at its first `=` (the flag part keeps
the leading dashes), and only the four value flags matter. -/
def fmvClass (arg : String) : FmvAction :=
  match arg.data with
  | '-' :: '-' :: argRest =>
    if argRest = [] then .stop
    else
      match splitFirstEq arg.data with
      | (flagL, some v) =>
        if (⟨flagL⟩ : String) ∈ valueFlags then
          if v.takeWhile (fun c => c != '=') = [] then .inlineEmpty ⟨flagL⟩
          else .skip
        else .skip
      | (flagL, none) =>
        if (⟨flagL⟩ : String) ∈ valueFlags then .needsNext ⟨flagL⟩
        else .skip
  | _ => .skip

/-- `findMissingValues` from the script: scan the raw arguments,
stopping at `--`; a value flag with an empty inline value, or a bare
value flag whose next token is absent, falsy (empty), or starts with
`-`, records a `Missing value for:` diagnostic (the offending next token
is not consumed); otherwise a bare value flag consumes the next token. -/
def findMissingValues : List String → List String
  | [] => []
  | [arg] =>
    match fmvClass arg with
    | .stop => []
    | .skip => []
    | .inlineEmpty flag => [missingValueMsg flag]
    | .needsNext flag => [missingValueMsg flag]
  | arg :: next :: rest2 =>
    match fmvClass arg with
    | .stop => []
    | .skip => findMissingValues (next :: rest2)
    | .inlineEmpty flag => missingValueMsg flag :: findMissingValues (next :: rest2)
    | .needsNext flag =>
      if next == "" || startsDash next then
        missingValueMsg flag :: findMissingValues (next :: rest2)
      else findMissingValues rest2

/-! ## The flag parser -/

/-- State threaded through the modelled flag parser: the recognized
option values (last occurrence wins), the unrecognized keys in first
occurrence order without duplicates, and the positional arguments. -/
structure ParseState where
  help : Bool := false
  url : Option String := none
  username : Option String := none
  query : Option String := none
  output : Option String := none
  unknownKeys : List String := []
  positionals : List String := []
deriving Repr, DecidableEq

/-- Keys the script accepts from the parser's result object (`_` is the
positional bucket, `h` the alias of `help`). -/
def allowedKeys : List String :=
  ["_", "help", "h", "url", "username", "query", "output"]

/-- Record an unrecognized key, keeping first occurrence order and
dropping duplicates (object keys are unique). -/
def addUnknown (st : ParseState) (k : String) : ParseState :=
  if k ∈ st.unknownKeys then st else { st with unknownKeys := st.unknownKeys ++ [k] }

/-- Apply a long option with its value: `help`/`h` are boolean (a value
of `"false"` clears them), the four string options store the value, `_`
feeds the positional bucket, anything else is an unknown key. -/
def applyLongKey (st : ParseState) (key v : String) : ParseState :=
  if key = "help" ∨ key = "h" then { st with help := v ≠ "false" }
  else if key = "url" then { st with url := some v }
  else if key = "username" then { st with username := some v }
  else if key = "query" then { st with query := some v }
  else if key = "output" then { st with output := some v }
  else if key = "_" then { st with positionals := st.positionals ++ [v] }
  else addUnknown st key

/-- Is this key a boolean flag (`help` or its alias `h`)? -/
def isBoolKey (key : String) : Bool := key == "help" || key == "h"

/-- One cluster of short flags: each character is its own key; `h` sets
`help`, any other character is an unknown single-character key (unless
it collides with an accepted key). -/
def shortLoop (st : ParseState) : List Char → ParseState
  | [] => st
  | ch :: rest =>
    if ch = 'h' then shortLoop { st with help := true } rest
    else if (⟨[ch]⟩ : String) ∈ allowedKeys then shortLoop st rest
    else shortLoop (addUnknown st ⟨[ch]⟩) rest

/-- The shapes a raw token can take for the flag parser. -/
inductive TokenShape where
  | terminator
  | longInline (key v : String)
  | longBare (key : String)
  | shortCluster (chars : List Char)
  | positional
deriving Repr, DecidableEq

/-- Classify one raw token for the flag parser: the bare `--`
terminator, a long option with an inline value (split at the first `=`,
the key without the leading dashes), a bare long option, a cluster of
short flags, or a positional. -/
def classifyToken (arg : String) : TokenShape :=
  match arg.data with
  | '-' :: '-' :: argRest =>
    if argRest = [] then .terminator
    else
      match splitFirstEq argRest with
      | (keyL, some v) => .longInline ⟨keyL⟩ ⟨v⟩
      | (keyL, none) => .longBare ⟨keyL⟩
  | '-' :: ch :: chRest => .shortCluster (ch :: chRest)
  | _ => .positional

/-- Modelled from the spec: the Deno std `flags` `parse` call (external
library, not part of this repository's sources), restricted to the
configuration the script uses — `boolean: ["help"]`,
`string: ["url", "username", "query", "output"]`, `alias: h -> help`.
A bare `--` sends everything after it to the positionals; `--key=value`
carries an inline value (everything after the first `=`); a bare
`--key` that is not boolean consumes the next token as its value unless
that token is absent or starts with `-`, in which case the value is the
empty string; `-abc` is a cluster of single-character flags; anything
else is a positional. -/
def parseLoop (st : ParseState) : List String → ParseState
  | [] => st
  | [arg] =>
    match classifyToken arg with
    | .terminator => st
    | .longInline key v => applyLongKey st key v
    | .longBare key =>
      if isBoolKey key then applyLongKey st key "true"
      else applyLongKey st key ""
    | .shortCluster chars => shortLoop st chars
    | .positional => { st with positionals := st.positionals ++ [arg] }
  | arg :: next :: rest2 =>
    match classifyToken arg with
    | .terminator => { st with positionals := st.positionals ++ (next :: rest2) }
    | .longInline key v => parseLoop (applyLongKey st key v) (next :: rest2)
    | .longBare key =>
      if isBoolKey key then parseLoop (applyLongKey st key "true") (next :: rest2)
      else if startsDash next then parseLoop (applyLongKey st key "") (next :: rest2)
      else parseLoop (applyLongKey st key next) rest2
    | .shortCluster chars => parseLoop (shortLoop st chars) (next :: rest2)
    | .positional => parseLoop { st with positionals := st.positionals ++ [arg] } (next :: rest2)

/-- The unrecognized option keys found by the flag-classification pass. -/
def unknownOptionKeys (args : List String) : List String :=
  (parseLoop {} args).unknownKeys

/-- The positional arguments found by the flag-classification pass. -/
def positionalArgs (args : List String) : List String :=
  (parseLoop {} args).positionals

/-- `parseArgs` from the script: run the flag parser, report unknown
keys, then positionals, then run the dedicated missing-value scan, and
package everything as an `Options`. -/
def parseArgs (args : List String) : Options :=
  let st := parseLoop {} args
  { help := st.help
    url := st.url
    username := st.username
    query := st.query
    output := st.output
    errors :=
      st.unknownKeys.map (fun k => "Unknown option: --" ++ k)
        ++ st.positionals.map (fun a => "Unknown argument: " ++ a)
        ++ findMissingValues args }

/-! ## URL construction and output-path resolution -/

/-- Strip a single leading `?` (the script's `replace(/^\?/, "")`). -/
def stripLeadingQuestion (s : String) : String :=
  match s.data with
  | '?' :: rest => ⟨rest⟩
  | _ => s

/-- The query-parameter list `buildUrl` assembles: `username` first, then
every parameter of the extra query string except those literally named
`username`. -/
def buildParams (username query : String) : List (String × String) :=
  ("username", username) ::
    (parseQS (stripLeadingQuestion query).data).filter fun kv => ¬ kv.1 = "username"

/-- `buildUrl` from the script: a truthy `options.url` is returned
verbatim; without a truthy `options.username` the result is `none`;
otherwise the URL is `http://localhost/` carrying `username` and, for a
truthy `options.query`, the extra parameters (minus any `username`),
serialized by the modelled `URLSearchParams` serializer. -/
def buildUrl (options : Options) : Option String :=
  if strTruthy options.url then options.url
  else if !strTruthy options.username then none
  else
    let u := options.username.getD ""
    let params :=
      if strTruthy options.query then buildParams u (options.query.getD "")
      else [("username", u)]
    some ("http://localhost/?" ++ (⟨renderQS params⟩ : String))

/-- `resolveOutputPath` from the script: a truthy `options.output` wins;
otherwise the candidate username is a truthy `options.username`, or else
the `username` query parameter of a parseable truthy `options.url`; a
truthy candidate gives `generated/<username>.svg`, anything else the
default `generated/trophy.svg`. -/
def resolveOutputPath (options : Options) : String :=
  if strTruthy options.output then options.output.getD ""
  else
    let username :=
      if !strTruthy options.username && strTruthy options.url then
        urlUsernameParam (options.url.getD "")
      else options.username
    if strTruthy username then "generated/" ++ username.getD "" ++ ".svg"
    else "generated/trophy.svg"

/-! ## The orchestrator -/

/-- The response surface the script reads from the external handler: a
success flag (`ok`), an integer status, and the body text. -/
structure HandlerResponse where
  ok : Bool
  status : Nat
  body : String
deriving Repr, DecidableEq

/-- Observable effects of one `run` invocation, in order: standard
output lines, standard error lines, the handler dispatch, directory
creation and the file write. -/
inductive Effect where
  | printOut (s : String)
  | printErr (s : String)
  | dispatch (url : String)
  | mkdir (path : String)
  | writeFile (path : String) (content : String)
deriving Repr, DecidableEq

/-- The usage text the script prints (one `console.log` argument). -/
def usageText : String :=
  "Usage:\n  deno run -A scripts/generate-trophy-svg.ts --url URL [--output PATH]\n  deno run -A scripts/generate-trophy-svg.ts --username NAME [--query QUERY] [--output PATH]\n\nOptions:\n  --url       Full request URL, including query string\n  --username  GitHub username\n  --query     Extra query string without the leading \"?\"\n  --output    Output SVG path\n  -h, --help  Show this help message\n"

/-- The mutual-exclusivity diagnostic. -/
def bothMsg : String := "Use either --url or --username, not both."

/-- The missing-required-flag diagnostic. -/
def neitherMsg : String := "Missing required --url or --username."

/-- Modelled from the spec: `dirname` from the Deno std path library
(external, not part of this repository's sources) — the part before the
last `/`, or `.` when there is no `/`. -/
def dirname (p : String) : String :=
  match p.data.reverse.dropWhile (fun c => c != '/') with
  | [] => "."
  | _ :: rest => if rest = [] then "/" else ⟨rest.reverse⟩

/-- `run` from the script, as a pure function from the raw arguments
and the external handler to the ordered effect trace and the exit code:
help short-circuits; then the url/username conflict and
missing-required checks append their diagnostics; any errors are
printed one per line followed by the usage text with exit code 1;
otherwise the URL is built (a `none` is reported with exit code 1), the
output path resolved, the handler dispatched; a failure response prints
the status message and a non-empty body with exit code 1; success
creates the parent directory (unless it is `.`), writes the body, and
confirms with exit code 0.  The script pushes the validation
diagnostics onto `options.errors` in place before calling `buildUrl`
and `resolveOutputPath`; since neither function reads `errors`, the
embedding passes the parsed record unchanged. -/
def run (handler : String → HandlerResponse) (args : List String) :
    List Effect × Nat :=
  let options := parseArgs args
  if options.help then ([Effect.printOut usageText], 0)
  else
    let errs := options.errors
      ++ (if strTruthy options.url && strTruthy options.username then [bothMsg] else [])
      ++ (if !strTruthy options.url && !strTruthy options.username then [neitherMsg] else [])
    if errs = [] then
      match buildUrl options with
      | none => ([Effect.printErr "Failed to build request URL."], 1)
      | some url =>
        let outputPath := resolveOutputPath options
        let response := handler url
        if !response.ok then
          ([Effect.dispatch url,
            Effect.printErr ("Request failed with status " ++ toString response.status ++ ".")]
            ++ (if response.body = "" then [] else [Effect.printErr response.body]), 1)
        else
          let outputDir := dirname outputPath
          ([Effect.dispatch url]
            ++ (if outputDir = "." then [] else [Effect.mkdir outputDir])
            ++ [Effect.writeFile outputPath response.body,
                Effect.printOut ("Wrote " ++ outputPath)], 0)
    else (errs.map Effect.printErr ++ [Effect.printOut usageText], 1)

/-- A handler stub used by concrete evaluations: always succeeds. -/
def okHandler : String → HandlerResponse := fun _ => ⟨true, 200, "svg"⟩

example :
    buildUrl { help := false, username := some "alice",
               query := some "column=-1&theme=onedark", errors := [] } =
      some "http://localhost/?username=alice&column=-1&theme=onedark" := by decide

example :
    buildUrl { help := false, username := some "alice",
               query := some "username=mallory", errors := [] } =
      some "http://localhost/?username=alice" := by decide

example :
    resolveOutputPath { help := false, username := some "bob", errors := [] } =
      "generated/bob.svg" := by decide

example :
    resolveOutputPath { help := false, errors := [] } = "generated/trophy.svg" := by decide

example :
    parseArgs ["--username", "bob", "--query", "row=2", "--output", "out.svg"] =
      { help := false, username := some "bob", query := some "row=2",
        output := some "out.svg", errors := [] } := by decide

example :
    (parseArgs ["stray", "--bogus=1", "--url="]).errors =
      ["Unknown option: --bogus", "Unknown argument: stray", "Missing value for: --url"] := by
  decide

example :
    run okHandler ["--username", "bob"] =
      ([Effect.dispatch "http://localhost/?username=bob",
        Effect.mkdir "generated",
        Effect.writeFile "generated/bob.svg" "svg",
        Effect.printOut "Wrote generated/bob.svg"], 0) := by decide

/-! ## Round-trip properties of the urlencoded codec -/

theorem toNat_ofNat_valid (n : Nat) (h : Nat.isValidChar n) : (Char.ofNat n).toNat = n := by
  unfold Char.ofNat
  simp [Char.ofNatAux, h, Char.toNat, UInt32.toNat, BitVec.toNat_ofNatLt]

theorem utf8DecodeGo_start (b : Nat) (bs : List Nat) :
    utf8DecodeGo 0 0 (b :: bs) =
      (if b < 128 then Char.ofNat b :: utf8DecodeGo 0 0 bs
       else if b < 192 then '�' :: utf8DecodeGo 0 0 bs
       else if b < 224 then utf8DecodeGo 1 (b - 192) bs
       else if b < 240 then utf8DecodeGo 2 (b - 224) bs
       else utf8DecodeGo 3 (b - 240) bs) := by
  rw [utf8DecodeGo]
  simp

theorem utf8DecodeGo_cont (need acc b : Nat) (bs : List Nat) (hn : need ≠ 0)
    (hc : isCont b = true) :
    utf8DecodeGo need acc (b :: bs) =
      (if need = 1 then Char.ofNat (acc * 64 + (b - 128)) :: utf8DecodeGo 0 0 bs
       else utf8DecodeGo (need - 1) (acc * 64 + (b - 128)) bs) := by
  rw [utf8DecodeGo]
  simp [hn, hc]

theorem utf8Encode_eq2 (c : Char) (h0 : 128 ≤ c.toNat) (h : c.toNat < 2048) :
    utf8Encode c = [192 + c.toNat / 64, 128 + c.toNat % 64] := by
  unfold utf8Encode
  rw [if_neg (by omega), if_pos h]

theorem utf8Encode_eq3 (c : Char) (h0 : 2048 ≤ c.toNat) (h : c.toNat < 65536) :
    utf8Encode c = [224 + c.toNat / 4096, 128 + (c.toNat / 64) % 64, 128 + c.toNat % 64] := by
  unfold utf8Encode
  rw [if_neg (by omega), if_neg (by omega), if_pos h]

theorem utf8Encode_eq4 (c : Char) (h0 : 65536 ≤ c.toNat) :
    utf8Encode c = [240 + c.toNat / 262144, 128 + (c.toNat / 4096) % 64,
      128 + (c.toNat / 64) % 64, 128 + c.toNat % 64] := by
  unfold utf8Encode
  rw [if_neg (by omega), if_neg (by omega), if_neg (by omega)]

/-- Decoding undoes encoding for a single scalar value, in any context. -/
theorem utf8Decode_encode (c : Char) (bs : List Nat) :
    utf8DecodeGo 0 0 (utf8Encode c ++ bs) = c :: utf8DecodeGo 0 0 bs := by
  have hv : Nat.isValidChar c.toNat := c.valid
  have hub : c.toNat < 1114112 := by
    rcases hv with h | ⟨_, h⟩ <;> omega
  have hofn : Char.ofNat c.toNat = c := Char.ofNat_toNat c
  by_cases h1 : c.toNat < 128
  · have he : utf8Encode c = [c.toNat] := by unfold utf8Encode; rw [if_pos h1]
    rw [he, List.cons_append, List.nil_append, utf8DecodeGo_start, if_pos h1, hofn]
  · by_cases h2 : c.toNat < 2048
    · rw [utf8Encode_eq2 c (by omega) h2]
      simp only [List.cons_append, List.nil_append]
      rw [utf8DecodeGo_start, if_neg (by omega), if_neg (by omega), if_pos (by omega)]
      rw [utf8DecodeGo_cont _ _ _ _ (by omega) (by simp [isCont]; omega), if_pos rfl]
      have : (192 + c.toNat / 64 - 192) * 64 + (128 + c.toNat % 64 - 128) = c.toNat := by omega
      rw [this, hofn]
    · by_cases h3 : c.toNat < 65536
      · rw [utf8Encode_eq3 c (by omega) h3]
        simp only [List.cons_append, List.nil_append]
        rw [utf8DecodeGo_start, if_neg (by omega), if_neg (by omega), if_neg (by omega),
          if_pos (by omega)]
        rw [utf8DecodeGo_cont _ _ _ _ (by omega) (by simp [isCont]; omega), if_neg (by omega)]
        rw [utf8DecodeGo_cont _ _ _ _ (by omega) (by simp [isCont]; omega), if_pos rfl]
        have e1 : (224 + c.toNat / 4096 - 224) * 64 + (128 + (c.toNat / 64) % 64 - 128) =
            c.toNat / 64 := by omega
        rw [e1]
        have e2 : c.toNat / 64 * 64 + (128 + c.toNat % 64 - 128) = c.toNat := by omega
        rw [e2, hofn]
      · rw [utf8Encode_eq4 c (by omega)]
        simp only [List.cons_append, List.nil_append]
        rw [utf8DecodeGo_start, if_neg (by omega), if_neg (by omega), if_neg (by omega),
          if_neg (by omega)]
        rw [utf8DecodeGo_cont _ _ _ _ (by omega) (by simp [isCont]; omega), if_neg (by omega)]
        rw [utf8DecodeGo_cont _ _ _ _ (by omega) (by simp [isCont]; omega), if_neg (by omega)]
        rw [utf8DecodeGo_cont _ _ _ _ (by omega) (by simp [isCont]; omega), if_pos rfl]
        have e1 : (240 + c.toNat / 262144 - 240) * 64 + (128 + (c.toNat / 4096) % 64 - 128) =
            c.toNat / 4096 := by omega
        rw [e1]
        have e2 : c.toNat / 4096 * 64 + (128 + (c.toNat / 64) % 64 - 128) = c.toNat / 64 := by
          omega
        rw [e2]
        have e3 : c.toNat / 64 * 64 + (128 + c.toNat % 64 - 128) = c.toNat := by omega
        rw [e3, hofn]

theorem utf8Decode_encodeList (cs : List Char) :
    utf8Decode (utf8EncodeList cs) = cs := by
  induction cs with
  | nil => rfl
  | cons c cs ih =>
    rw [utf8EncodeList]
    unfold utf8Decode at ih ⊢
    rw [utf8Decode_encode, ih]

theorem isUrlSafe_facts (b : Nat) (h : isUrlSafe b = true) :
    b < 128 ∧ b ≠ 32 ∧ b ≠ 37 ∧ b ≠ 43 ∧ b ≠ 35 ∧ b ≠ 38 ∧ b ≠ 61 ∧ b ≠ 63 := by
  simp only [isUrlSafe, Bool.or_eq_true, Bool.and_eq_true, decide_eq_true_eq] at h
  omega

theorem hexDigit_facts (n : Nat) (h : n < 16) :
    isHexChar (hexDigit n) = true ∧ hexVal (hexDigit n) = n ∧
      hexDigit n ≠ '+' ∧ hexDigit n ≠ '%' ∧ hexDigit n ≠ '&' ∧ hexDigit n ≠ '=' ∧
      hexDigit n ≠ '#' ∧ hexDigit n ≠ '?' := by
  interval_cases n <;> exact ⟨by decide, by decide, by decide, by decide, by decide, by decide,
    by decide, by decide⟩

theorem charOfNat_ne (b m : Nat) (hb : b < 55296) (hm : m < 55296) (hne : b ≠ m) :
    Char.ofNat b ≠ Char.ofNat m := by
  intro h
  have hb' : (Char.ofNat b).toNat = b := toNat_ofNat_valid b (Or.inl hb)
  have hm' : (Char.ofNat m).toNat = m := toNat_ofNat_valid m (Or.inl hm)
  rw [h, hm'] at hb'
  exact hne hb'.symm

/-- Byte-level round trip: percent-decoding undoes `encodeByte`, in any
context starting from the initial decoder state. -/
theorem percentDecode_encodeByte (b : Nat) (hb : b < 256) (rest : List Char) :
    percentDecodeGo none (encodeByte b ++ rest) = b :: percentDecodeGo none rest := by
  by_cases h32 : b = 32
  · subst h32
    rw [encodeByte]
    simp only [if_pos rfl, List.cons_append, List.nil_append]
    rw [percentDecodeGo.eq_def]
    simp
  · by_cases hsafe : isUrlSafe b = true
    · obtain ⟨hlt, -, h37, h43, -⟩ := isUrlSafe_facts b hsafe
      rw [encodeByte, if_neg h32, if_pos hsafe]
      simp only [List.cons_append, List.nil_append]
      rw [percentDecodeGo.eq_def]
      have hplus : ¬ Char.ofNat b = '+' := by
        have : ('+' : Char) = Char.ofNat 43 := by decide
        rw [this]
        exact charOfNat_ne b 43 (by omega) (by omega) h43
      have hpct : ¬ Char.ofNat b = '%' := by
        have : ('%' : Char) = Char.ofNat 37 := by decide
        rw [this]
        exact charOfNat_ne b 37 (by omega) (by omega) h37
      simp only [hplus, if_false, hpct]
      have henc : utf8Encode (Char.ofNat b) = [b] := by
        unfold utf8Encode
        rw [toNat_ofNat_valid b (Or.inl (by omega)), if_pos hlt]
      simp [henc]
    · rw [encodeByte, if_neg h32, if_neg hsafe]
      have hd1 := hexDigit_facts (b / 16) (by omega)
      have hd2 := hexDigit_facts (b % 16) (by omega)
      simp only [List.cons_append, List.nil_append]
      rw [percentDecodeGo.eq_def]
      simp only [show ¬ ('%' : Char) = '+' by decide, if_false, if_pos rfl]
      rw [percentDecodeGo.eq_def]
      simp only [hd1.1, if_true]
      rw [percentDecodeGo.eq_def]
      simp only [hd2.1, if_true, hd1.2.1, hd2.2.1]
      have : b / 16 * 16 + b % 16 = b := by omega
      rw [this]

theorem percentDecode_encodeBytes (bytes : List Nat) (hb : ∀ b ∈ bytes, b < 256)
    (rest : List Char) :
    percentDecodeGo none (encodeBytes bytes ++ rest) = bytes ++ percentDecodeGo none rest := by
  induction bytes with
  | nil => rfl
  | cons b bs ih =>
    rw [encodeBytes, List.append_assoc, percentDecode_encodeByte b (hb b (by simp)) _,
      List.cons_append, ih (fun x hx => hb x (by simp [hx]))]

theorem utf8Encode_bytes_lt (c : Char) : ∀ b ∈ utf8Encode c, b < 256 := by
  have hv : Nat.isValidChar c.toNat := c.valid
  have hub : c.toNat < 1114112 := by
    rcases hv with h | ⟨_, h⟩ <;> omega
  intro b hb
  unfold utf8Encode at hb
  by_cases h1 : c.toNat < 128
  · simp [h1] at hb; omega
  · by_cases h2 : c.toNat < 2048
    · simp [h1, h2] at hb; omega
    · by_cases h3 : c.toNat < 65536
      · simp [h1, h2, h3] at hb
        rcases hb with h | h | h <;> omega
      · simp [h1, h2, h3] at hb
        rcases hb with h | h | h | h <;> omega

theorem utf8EncodeList_bytes_lt (cs : List Char) : ∀ b ∈ utf8EncodeList cs, b < 256 := by
  induction cs with
  | nil => simp [utf8EncodeList]
  | cons c cs ih =>
    intro b hb
    rw [utf8EncodeList] at hb
    rcases List.mem_append.1 hb with h | h
    · exact utf8Encode_bytes_lt c b h
    · exact ih b h

/-- The urlencoded codec round-trips on every character sequence. -/
theorem formDecode_formEncode (cs : List Char) : formDecode (formEncode cs) = cs := by
  unfold formDecode formEncode percentDecodeBytes
  rw [show encodeBytes (utf8EncodeList cs) = encodeBytes (utf8EncodeList cs) ++ [] by simp,
    percentDecode_encodeBytes _ (utf8EncodeList_bytes_lt cs)]
  simp only [percentDecodeGo, List.append_nil]
  exact utf8Decode_encodeList cs

/-! ## The serializer never emits query metacharacters -/

/-- Characters that never occur in urlencoded serializer output and that
the URL/query splitting logic treats specially. -/
def encOK (ch : Char) : Prop :=
  ch ≠ '&' ∧ ch ≠ '=' ∧ ch ≠ '#' ∧ ch ≠ '?'

theorem encodeByte_encOK (b : Nat) (hb : b < 256) : ∀ ch ∈ encodeByte b, encOK ch := by
  intro ch hch
  unfold encodeByte at hch
  by_cases h32 : b = 32
  · simp [h32] at hch
    subst hch
    exact ⟨by decide, by decide, by decide, by decide⟩
  · by_cases hsafe : isUrlSafe b = true
    · simp [h32, hsafe] at hch
      subst hch
      obtain ⟨hlt, -, -, -, h35, h38, h61, h63⟩ := isUrlSafe_facts b hsafe
      refine ⟨?_, ?_, ?_, ?_⟩
      · exact (show ('&' : Char) = Char.ofNat 38 by decide) ▸
          charOfNat_ne b 38 (by omega) (by omega) h38
      · exact (show ('=' : Char) = Char.ofNat 61 by decide) ▸
          charOfNat_ne b 61 (by omega) (by omega) h61
      · exact (show ('#' : Char) = Char.ofNat 35 by decide) ▸
          charOfNat_ne b 35 (by omega) (by omega) h35
      · exact (show ('?' : Char) = Char.ofNat 63 by decide) ▸
          charOfNat_ne b 63 (by omega) (by omega) h63
    · simp [h32, hsafe] at hch
      have hd1 := hexDigit_facts (b / 16) (by omega)
      have hd2 := hexDigit_facts (b % 16) (by omega)
      rcases hch with h | h | h
      · subst h; exact ⟨by decide, by decide, by decide, by decide⟩
      · subst h
        exact ⟨hd1.2.2.2.2.1, hd1.2.2.2.2.2.1, hd1.2.2.2.2.2.2.1, hd1.2.2.2.2.2.2.2⟩
      · subst h
        exact ⟨hd2.2.2.2.2.1, hd2.2.2.2.2.2.1, hd2.2.2.2.2.2.2.1, hd2.2.2.2.2.2.2.2⟩

theorem encodeBytes_encOK (bytes : List Nat) (hb : ∀ b ∈ bytes, b < 256) :
    ∀ ch ∈ encodeBytes bytes, encOK ch := by
  induction bytes with
  | nil => simp [encodeBytes]
  | cons b bs ih =>
    intro ch hch
    rw [encodeBytes] at hch
    rcases List.mem_append.1 hch with h | h
    · exact encodeByte_encOK b (hb b (by simp)) ch h
    · exact ih (fun x hx => hb x (by simp [hx])) ch h

theorem formEncode_encOK (cs : List Char) : ∀ ch ∈ formEncode cs, encOK ch :=
  encodeBytes_encOK _ (utf8EncodeList_bytes_lt cs)

/-! ## Splitting lemmas -/

theorem splitOnChar_no_sep (sep : Char) (xs : List Char) (h : ∀ c ∈ xs, c ≠ sep) :
    splitOnChar sep xs = [xs] := by
  induction xs with
  | nil => rfl
  | cons c cs ih =>
    rw [splitOnChar, if_neg (h c (by simp)), ih (fun x hx => h x (by simp [hx]))]

theorem splitOnChar_ne_nil (sep : Char) (ys : List Char) : splitOnChar sep ys ≠ [] := by
  induction ys with
  | nil => simp [splitOnChar]
  | cons y ys ihy =>
    rw [splitOnChar]
    by_cases hy : y = sep
    · simp [hy]
    · rw [if_neg hy]
      cases h2 : splitOnChar sep ys <;> simp

theorem splitOnChar_append (sep : Char) (xs ys : List Char) (h : ∀ c ∈ xs, c ≠ sep) :
    splitOnChar sep (xs ++ sep :: ys) = xs :: splitOnChar sep ys := by
  induction xs with
  | nil =>
    rw [List.nil_append, splitOnChar, if_pos rfl]
  | cons c cs ih =>
    rw [List.cons_append, splitOnChar, if_neg (h c (by simp)),
      ih (fun x hx => h x (by simp [hx]))]

theorem splitFirstEq_append (xs ys : List Char) (h : ∀ c ∈ xs, c ≠ '=') :
    splitFirstEq (xs ++ '=' :: ys) = (xs, some ys) := by
  induction xs with
  | nil => rw [List.nil_append, splitFirstEq, if_pos rfl]
  | cons c cs ih =>
    rw [List.cons_append, splitFirstEq, if_neg (h c (by simp)),
      ih (fun x hx => h x (by simp [hx]))]

/-! ## Query-string round trip -/

theorem encodePair_mem (kv : String × String) :
    ∀ ch ∈ encodePair kv, ch = '=' ∨ encOK ch := by
  intro ch hch
  unfold encodePair at hch
  rcases List.mem_append.1 hch with h | h
  · exact Or.inr (formEncode_encOK _ ch h)
  · rcases List.mem_cons.1 h with h | h
    · exact Or.inl h
    · exact Or.inr (formEncode_encOK _ ch h)

theorem encodePair_no_amp (kv : String × String) : ∀ ch ∈ encodePair kv, ch ≠ '&' := by
  intro ch hch
  rcases encodePair_mem kv ch hch with h | h
  · subst h; decide
  · exact h.1

theorem parsePiece_encodePair (kv : String × String) :
    splitFirstEq (encodePair kv) = (formEncode kv.1.data, some (formEncode kv.2.data)) := by
  unfold encodePair
  exact splitFirstEq_append _ _ (fun c hc => (formEncode_encOK _ c hc).2.1)

theorem string_mk_data (s : String) : (⟨s.data⟩ : String) = s := rfl

/-- The modelled `URLSearchParams` parser undoes the modelled serializer
on every parameter list. -/
theorem parseQS_renderQS (l : List (String × String)) : parseQS (renderQS l) = l := by
  induction l with
  | nil => rfl
  | cons kv rest ih =>
    cases rest with
    | nil =>
      unfold parseQS renderQS
      rw [splitOnChar_no_sep '&' _ (encodePair_no_amp kv)]
      have hne : encodePair kv ≠ [] := by
        unfold encodePair
        intro h
        have := congrArg List.length h
        simp at this
      simp only [List.filterMap, hne, if_neg hne]
      rw [parsePiece_encodePair]
      simp only [formDecode_formEncode, string_mk_data]
      rfl
    | cons kv2 rest2 =>
      rw [renderQS]
      unfold parseQS
      rw [splitOnChar_append '&' _ _ (encodePair_no_amp kv)]
      rw [List.filterMap_cons]
      have hne : encodePair kv ≠ [] := by
        unfold encodePair
        intro h
        have := congrArg List.length h
        simp at this
      simp only [if_neg hne]
      rw [parsePiece_encodePair]
      simp only [formDecode_formEncode, string_mk_data]
      have : parseQS (renderQS (kv2 :: rest2)) = kv2 :: rest2 := ih
      unfold parseQS at this
      rw [this]

/-! ## Reading the built URL back -/

theorem takeWhile_append_all (p : Char → Bool) (xs ys : List Char)
    (h : ∀ c ∈ xs, p c = true) :
    (xs ++ ys).takeWhile p = xs ++ ys.takeWhile p := by
  induction xs with
  | nil => rfl
  | cons c cs ih =>
    rw [List.cons_append, List.takeWhile_cons, h c (by simp)]
    simp only [if_pos rfl]
    rw [ih (fun x hx => h x (by simp [hx]))]
    rfl

theorem takeWhile_all (p : Char → Bool) (xs : List Char) (h : ∀ c ∈ xs, p c = true) :
    xs.takeWhile p = xs := by
  have := takeWhile_append_all p xs [] h
  simpa using this

theorem dropWhile_append_all (p : Char → Bool) (xs ys : List Char)
    (h : ∀ c ∈ xs, p c = true) :
    (xs ++ ys).dropWhile p = ys.dropWhile p := by
  induction xs with
  | nil => rfl
  | cons c cs ih =>
    rw [List.cons_append, List.dropWhile_cons, h c (by simp)]
    simp only [if_true]
    exact ih (fun x hx => h x (by simp [hx]))

/-- Characters that keep the URL's query component intact: neither `#`
nor `?`. -/
def qsOK (ch : Char) : Prop := ch ≠ '#' ∧ ch ≠ '?'

theorem renderQS_qsOK (l : List (String × String)) : ∀ ch ∈ renderQS l, qsOK ch := by
  induction l with
  | nil => simp [renderQS]
  | cons kv rest ih =>
    cases rest with
    | nil =>
      intro ch hch
      rw [renderQS] at hch
      rcases encodePair_mem kv ch hch with h | h
      · subst h; exact ⟨by decide, by decide⟩
      · exact ⟨h.2.2.1, h.2.2.2⟩
    | cons kv2 rest2 =>
      intro ch hch
      rw [renderQS] at hch
      rcases List.mem_append.1 hch with h | h
      · rcases encodePair_mem kv ch h with h | h
        · subst h; exact ⟨by decide, by decide⟩
        · exact ⟨h.2.2.1, h.2.2.2⟩
      · rcases List.mem_cons.1 h with h | h
        · subst h; exact ⟨by decide, by decide⟩
        · exact ih ch h

theorem extractQuery_localhost (E : List Char) (hE : ∀ c ∈ E, qsOK c) :
    extractQuery ("//localhost/?".data ++ E) = E := by
  unfold extractQuery
  have hdata : ("//localhost/?".data : List Char) =
      "//localhost/".data ++ '?' :: E ++ [] → True := fun _ => trivial
  have e1 : ("//localhost/?".data ++ E : List Char) =
      "//localhost/".data ++ ('?' :: E) := by rfl
  rw [e1]
  rw [takeWhile_append_all _ _ _ (by decide)]
  have e2 : (('?' :: E).takeWhile fun c => c != '#') = '?' :: E.takeWhile fun c => c != '#' := by
    rw [List.takeWhile_cons]
    simp
  rw [e2, takeWhile_all _ E (fun c hc => by
    have := (hE c hc).1
    simpa using this)]
  rw [dropWhile_append_all _ _ _ (by decide)]
  rw [List.dropWhile_cons]
  simp

theorem urlParse_localhost (E : List Char) :
    urlParse ("http://localhost/?" ++ (⟨E⟩ : String)) = some ("//localhost/?".data ++ E) := by
  have hdata : ("http://localhost/?" ++ (⟨E⟩ : String)).data =
      'h' :: 't' :: 't' :: 'p' :: ':' :: ("//localhost/?".data ++ E) := by
    rw [String.data_append]
    rfl
  unfold urlParse
  rw [hdata]
  simp only [show ('h' : Char).isAlpha = true by decide, if_true]
  rw [schemeRest, if_neg (by decide), if_pos (by decide)]
  rw [schemeRest, if_neg (by decide), if_pos (by decide)]
  rw [schemeRest, if_neg (by decide), if_pos (by decide)]
  rw [schemeRest, if_pos rfl]

/-- Round trip through the URL layer: `searchParams.get("username")` on
the URL built over `http://localhost/` recovers the first parameter of
the serialized list when that parameter is named `username`. -/
theorem urlUsernameParam_localhost (u : String) (extras : List (String × String)) :
    urlUsernameParam ("http://localhost/?" ++ (⟨renderQS (("username", u) :: extras)⟩ : String)) =
      some u := by
  unfold urlUsernameParam
  rw [urlParse_localhost]
  show (match (parseQS (extractQuery ("//localhost/?".data ++
      renderQS (("username", u) :: extras)))).find? (fun kv => kv.1 == "username") with
    | some kv => some kv.2
    | none => none) = some u
  rw [extractQuery_localhost _ (renderQS_qsOK _), parseQS_renderQS,
    List.find?_cons_of_pos _ (by simp)]

/-! ## Characterizing buildUrl and resolveOutputPath -/

theorem strTruthy_false_getD (q : Option String) (h : strTruthy q = false) : q.getD "" = "" := by
  cases q with
  | none => rfl
  | some s =>
    simp only [strTruthy, Bool.not_eq_false'] at h
    have : s.data = [] := by
      cases hs : s.data with
      | nil => rfl
      | cons c cs => rw [hs] at h; simp at h
    calc (some s).getD "" = s := rfl
      _ = ⟨s.data⟩ := rfl
      _ = ⟨[]⟩ := by rw [this]

theorem buildParams_empty_query (u : String) : buildParams u "" = [("username", u)] := by
  rfl

theorem buildUrl_of_url (o : Options) (hu : strTruthy o.url = true) : buildUrl o = o.url := by
  unfold buildUrl
  rw [hu]
  rfl

theorem buildUrl_of_username (o : Options) (hu : strTruthy o.url = false)
    (hn : strTruthy o.username = true) :
    buildUrl o = some ("http://localhost/?" ++
      (⟨renderQS (buildParams (o.username.getD "") (o.query.getD ""))⟩ : String)) := by
  unfold buildUrl
  rw [hu, hn]
  simp only [Bool.false_eq_true, if_false, Bool.not_true, Bool.false_eq_true, if_false]
  by_cases hq : strTruthy o.query = true
  · rw [hq]
    rfl
  · rw [Bool.not_eq_true] at hq
    rw [hq]
    simp only [Bool.false_eq_true, if_false]
    rw [strTruthy_false_getD o.query hq, buildParams_empty_query]

theorem buildUrl_none_iff_aux (o : Options) :
    buildUrl o = none ↔ (strTruthy o.url = false ∧ strTruthy o.username = false) := by
  constructor
  · intro h
    by_cases hu : strTruthy o.url = true
    · rw [buildUrl_of_url o hu] at h
      rw [h] at hu
      simp [strTruthy] at hu
    · rw [Bool.not_eq_true] at hu
      by_cases hn : strTruthy o.username = true
      · rw [buildUrl_of_username o hu hn] at h
        simp at h
      · exact ⟨hu, Bool.not_eq_true _ ▸ hn⟩
  · intro ⟨hu, hn⟩
    unfold buildUrl
    rw [hu, hn]
    rfl

theorem resolveOutputPath_of_output (o : Options) (h : strTruthy o.output = true) :
    resolveOutputPath o = o.output.getD "" := by
  unfold resolveOutputPath
  rw [h]
  rfl

theorem resolveOutputPath_of_username (o : Options) (ho : strTruthy o.output = false)
    (hn : strTruthy o.username = true) :
    resolveOutputPath o = "generated/" ++ o.username.getD "" ++ ".svg" := by
  unfold resolveOutputPath
  rw [ho, hn]
  simp only [Bool.false_eq_true, if_false, Bool.not_true, Bool.false_and, hn, if_true]

theorem resolveOutputPath_default (o : Options) (ho : strTruthy o.output = false)
    (hn : strTruthy o.username = false) (hu : strTruthy o.url = false) :
    resolveOutputPath o = "generated/trophy.svg" := by
  unfold resolveOutputPath
  rw [ho, hn, hu]
  simp only [Bool.false_eq_true, if_false, Bool.not_false, Bool.and_false, hn]

theorem resolveOutputPath_from_url (o : Options) (ho : strTruthy o.output = false)
    (hn : strTruthy o.username = false) (hu : strTruthy o.url = true) :
    resolveOutputPath o =
      (if strTruthy (urlUsernameParam (o.url.getD "")) = true then
        "generated/" ++ (urlUsernameParam (o.url.getD "")).getD "" ++ ".svg"
      else "generated/trophy.svg") := by
  unfold resolveOutputPath
  rw [ho, hn, hu]
  simp only [Bool.false_eq_true, if_false, Bool.not_false, Bool.true_and, if_true]

/-! ## Control flow of run -/

theorem run_of_help (handler : String → HandlerResponse) (args : List String)
    (h : (parseArgs args).help = true) :
    run handler args = ([Effect.printOut usageText], 0) := by
  simp only [run, h, if_true]

/-- The diagnostics `run` ends up holding after the url/username
validation step. -/
def validatedErrors (args : List String) : List String :=
  (parseArgs args).errors
    ++ (if strTruthy (parseArgs args).url && strTruthy (parseArgs args).username then [bothMsg]
        else [])
    ++ (if !strTruthy (parseArgs args).url && !strTruthy (parseArgs args).username then
          [neitherMsg]
        else [])

theorem run_of_errors (handler : String → HandlerResponse) (args : List String)
    (hh : (parseArgs args).help = false) (he : validatedErrors args ≠ []) :
    run handler args =
      ((validatedErrors args).map Effect.printErr ++ [Effect.printOut usageText], 1) := by
  simp only [run, hh, Bool.false_eq_true, if_false]
  rw [if_neg (by exact he)]
  rfl

theorem run_of_valid (handler : String → HandlerResponse) (args : List String)
    (hh : (parseArgs args).help = false) (he : validatedErrors args = []) (url : String)
    (hurl : buildUrl (parseArgs args) = some url) :
    run handler args =
      (if !(handler url).ok then
        ([Effect.dispatch url,
          Effect.printErr ("Request failed with status " ++ toString (handler url).status ++ ".")]
          ++ (if (handler url).body = "" then [] else [Effect.printErr (handler url).body]), 1)
      else
        ([Effect.dispatch url]
          ++ (if dirname (resolveOutputPath (parseArgs args)) = "." then []
              else [Effect.mkdir (dirname (resolveOutputPath (parseArgs args)))])
          ++ [Effect.writeFile (resolveOutputPath (parseArgs args)) (handler url).body,
              Effect.printOut ("Wrote " ++ resolveOutputPath (parseArgs args))], 0)) := by
  simp only [run, hh, Bool.false_eq_true, if_false]
  rw [if_pos (by exact he)]
  rw [hurl]

/-! ## Step lemmas for the two scanning passes -/

theorem findMissingValues_cons_stop (arg : String) (rest : List String)
    (h : fmvClass arg = .stop) : findMissingValues (arg :: rest) = [] := by
  cases rest with
  | nil => simp only [findMissingValues, h]
  | cons next rest2 => simp only [findMissingValues, h]

theorem findMissingValues_cons_skip (arg : String) (rest : List String)
    (h : fmvClass arg = .skip) : findMissingValues (arg :: rest) = findMissingValues rest := by
  cases rest with
  | nil => simp only [findMissingValues, h]
  | cons next rest2 => simp only [findMissingValues, h]

theorem findMissingValues_cons_inlineEmpty (arg flag : String) (rest : List String)
    (h : fmvClass arg = .inlineEmpty flag) :
    findMissingValues (arg :: rest) = missingValueMsg flag :: findMissingValues rest := by
  cases rest with
  | nil => simp only [findMissingValues, h]
  | cons next rest2 => simp only [findMissingValues, h]

theorem findMissingValues_cons_needsNext_nil (arg flag : String)
    (h : fmvClass arg = .needsNext flag) :
    findMissingValues [arg] = [missingValueMsg flag] := by
  simp only [findMissingValues, h]

theorem findMissingValues_cons_needsNext_dash (arg flag next : String) (rest2 : List String)
    (h : fmvClass arg = .needsNext flag) (hd : (next == "" || startsDash next) = true) :
    findMissingValues (arg :: next :: rest2) =
      missingValueMsg flag :: findMissingValues (next :: rest2) := by
  simp only [findMissingValues, h, hd, if_true]

theorem findMissingValues_cons_needsNext_consume (arg flag next : String) (rest2 : List String)
    (h : fmvClass arg = .needsNext flag) (hd : (next == "" || startsDash next) = false) :
    findMissingValues (arg :: next :: rest2) = findMissingValues rest2 := by
  simp only [findMissingValues, h, hd, Bool.false_eq_true, if_false]

theorem parseLoop_cons_terminator (st : ParseState) (arg : String) (rest : List String)
    (h : classifyToken arg = .terminator) :
    parseLoop st (arg :: rest) = { st with positionals := st.positionals ++ rest } := by
  cases rest with
  | nil => simp only [parseLoop, h, List.append_nil]
  | cons next rest2 => simp only [parseLoop, h]

theorem parseLoop_cons_longInline (st : ParseState) (arg key v : String) (rest : List String)
    (h : classifyToken arg = .longInline key v) :
    parseLoop st (arg :: rest) = parseLoop (applyLongKey st key v) rest := by
  cases rest with
  | nil => simp only [parseLoop, h]
  | cons next rest2 => simp only [parseLoop, h]

theorem parseLoop_cons_longBare_bool (st : ParseState) (arg key : String) (rest : List String)
    (h : classifyToken arg = .longBare key) (hb : isBoolKey key = true) :
    parseLoop st (arg :: rest) = parseLoop (applyLongKey st key "true") rest := by
  cases rest with
  | nil => simp only [parseLoop, h, hb, if_true]
  | cons next rest2 => simp only [parseLoop, h, hb, if_true]

theorem parseLoop_cons_longBare_nil (st : ParseState) (arg key : String)
    (h : classifyToken arg = .longBare key) (hb : isBoolKey key = false) :
    parseLoop st [arg] = applyLongKey st key "" := by
  simp only [parseLoop, h, hb, Bool.false_eq_true, if_false]

theorem parseLoop_cons_longBare_dash (st : ParseState) (arg key next : String)
    (rest2 : List String) (h : classifyToken arg = .longBare key) (hb : isBoolKey key = false)
    (hd : startsDash next = true) :
    parseLoop st (arg :: next :: rest2) =
      parseLoop (applyLongKey st key "") (next :: rest2) := by
  simp only [parseLoop, h, hb, Bool.false_eq_true, if_false, hd, if_true]

theorem parseLoop_cons_longBare_consume (st : ParseState) (arg key next : String)
    (rest2 : List String) (h : classifyToken arg = .longBare key) (hb : isBoolKey key = false)
    (hd : startsDash next = false) :
    parseLoop st (arg :: next :: rest2) = parseLoop (applyLongKey st key next) rest2 := by
  simp only [parseLoop, h, hb, Bool.false_eq_true, if_false, hd]

theorem parseLoop_cons_shortCluster (st : ParseState) (arg : String) (chars : List Char)
    (rest : List String) (h : classifyToken arg = .shortCluster chars) :
    parseLoop st (arg :: rest) = parseLoop (shortLoop st chars) rest := by
  cases rest with
  | nil => simp only [parseLoop, h]
  | cons next rest2 => simp only [parseLoop, h]

theorem parseLoop_cons_positional (st : ParseState) (arg : String) (rest : List String)
    (h : classifyToken arg = .positional) :
    parseLoop st (arg :: rest) =
      parseLoop { st with positionals := st.positionals ++ [arg] } rest := by
  cases rest with
  | nil => simp only [parseLoop, h]
  | cons next rest2 => simp only [parseLoop, h]

/-! ## Invariants of the flag-classification pass -/

theorem addUnknown_mem (st : ParseState) (k0 k : String)
    (h : k ∈ (addUnknown st k0).unknownKeys) : k ∈ st.unknownKeys ∨ k = k0 := by
  unfold addUnknown at h
  by_cases hk : k0 ∈ st.unknownKeys
  · rw [if_pos hk] at h
    exact Or.inl h
  · rw [if_neg hk] at h
    simp only [List.mem_append, List.mem_singleton] at h
    exact h

theorem applyLongKey_unknown_mem (st : ParseState) (key v k : String)
    (h : k ∈ (applyLongKey st key v).unknownKeys) :
    k ∈ st.unknownKeys ∨ (k = key ∧ key ∉ allowedKeys) := by
  unfold applyLongKey at h
  split_ifs at h with h1 h2 h3 h4 h5 h6
  · exact Or.inl h
  · exact Or.inl h
  · exact Or.inl h
  · exact Or.inl h
  · exact Or.inl h
  · exact Or.inl h
  · rcases addUnknown_mem st key k h with hm | hm
    · exact Or.inl hm
    · refine Or.inr ⟨hm, ?_⟩
      simp only [allowedKeys, List.mem_cons, List.not_mem_nil, or_false]
      intro hc
      rcases hc with hc | hc | hc | hc | hc | hc | hc
      · exact h6 hc
      · exact h1 (Or.inl hc)
      · exact h1 (Or.inr hc)
      · exact h2 hc
      · exact h3 hc
      · exact h4 hc
      · exact h5 hc

theorem shortLoop_unknown_mem (chars : List Char) :
    ∀ st k, k ∈ (shortLoop st chars).unknownKeys →
      k ∈ st.unknownKeys ∨ k ∉ allowedKeys := by
  induction chars with
  | nil => intro st k h; exact Or.inl h
  | cons ch rest ih =>
    intro st k h
    rw [shortLoop] at h
    by_cases hh : ch = 'h'
    · rw [if_pos hh] at h
      rcases ih _ k h with hm | hm
      · exact Or.inl hm
      · exact Or.inr hm
    · rw [if_neg hh] at h
      by_cases ha : (⟨[ch]⟩ : String) ∈ allowedKeys
      · rw [if_pos ha] at h
        exact ih _ k h
      · rw [if_neg ha] at h
        rcases ih _ k h with hm | hm
        · rcases addUnknown_mem st _ k hm with hm2 | hm2
          · exact Or.inl hm2
          · exact Or.inr (hm2 ▸ ha)
        · exact Or.inr hm

/-- Every key the flag-classification pass reports as unknown really is
outside the accepted key set. -/
theorem parseLoop_unknown_not_allowed (n : Nat) :
    ∀ args : List String, args.length ≤ n → ∀ st : ParseState,
      (∀ k ∈ st.unknownKeys, k ∉ allowedKeys) →
      ∀ k ∈ (parseLoop st args).unknownKeys, k ∉ allowedKeys := by
  induction n with
  | zero =>
    intro args hlen st hst k hk
    have : args = [] := List.length_eq_zero.1 (Nat.le_zero.1 hlen)
    subst this
    exact hst k hk
  | succ n ih =>
    intro args hlen st hst k hk
    match args with
    | [] => exact hst k hk
    | [arg] =>
      cases hcl : classifyToken arg with
      | terminator =>
        rw [parseLoop_cons_terminator st arg [] hcl] at hk
        exact hst k hk
      | longInline key v =>
        rw [parseLoop_cons_longInline st arg key v [] hcl] at hk
        show k ∉ allowedKeys
        have : parseLoop (applyLongKey st key v) [] = applyLongKey st key v := rfl
        rw [this] at hk
        rcases applyLongKey_unknown_mem st key v k hk with hm | hm
        · exact hst k hm
        · exact hm.1 ▸ hm.2
      | longBare key =>
        by_cases hb : isBoolKey key = true
        · rw [parseLoop_cons_longBare_bool st arg key [] hcl hb] at hk
          have : parseLoop (applyLongKey st key "true") [] = applyLongKey st key "true" := rfl
          rw [this] at hk
          rcases applyLongKey_unknown_mem st key _ k hk with hm | hm
          · exact hst k hm
          · exact hm.1 ▸ hm.2
        · rw [parseLoop_cons_longBare_nil st arg key hcl (Bool.not_eq_true _ ▸ hb)] at hk
          rcases applyLongKey_unknown_mem st key _ k hk with hm | hm
          · exact hst k hm
          · exact hm.1 ▸ hm.2
      | shortCluster chars =>
        rw [parseLoop_cons_shortCluster st arg chars [] hcl] at hk
        have : parseLoop (shortLoop st chars) [] = shortLoop st chars := rfl
        rw [this] at hk
        rcases shortLoop_unknown_mem chars st k hk with hm | hm
        · exact hst k hm
        · exact hm
      | positional =>
        rw [parseLoop_cons_positional st arg [] hcl] at hk
        exact hst k hk
    | arg :: next :: rest2 =>
      have hlen2 : (next :: rest2).length ≤ n := by
        simp only [List.length_cons] at hlen ⊢
        omega
      have hlen3 : rest2.length ≤ n := by
        simp only [List.length_cons] at hlen
        omega
      have hst' : ∀ key v, ∀ k ∈ (applyLongKey st key v).unknownKeys, k ∉ allowedKeys := by
        intro key v k2 hk2
        rcases applyLongKey_unknown_mem st key v k2 hk2 with hm | hm
        · exact hst k2 hm
        · exact hm.1 ▸ hm.2
      cases hcl : classifyToken arg with
      | terminator =>
        rw [parseLoop_cons_terminator st arg _ hcl] at hk
        exact hst k hk
      | longInline key v =>
        rw [parseLoop_cons_longInline st arg key v _ hcl] at hk
        exact ih _ hlen2 _ (hst' key v) k hk
      | longBare key =>
        by_cases hb : isBoolKey key = true
        · rw [parseLoop_cons_longBare_bool st arg key _ hcl hb] at hk
          exact ih _ hlen2 _ (hst' key "true") k hk
        · by_cases hd : startsDash next = true
          · rw [parseLoop_cons_longBare_dash st arg key next rest2 hcl
              (Bool.not_eq_true _ ▸ hb) hd] at hk
            exact ih _ hlen2 _ (hst' key "") k hk
          · rw [parseLoop_cons_longBare_consume st arg key next rest2 hcl
              (Bool.not_eq_true _ ▸ hb) (Bool.not_eq_true _ ▸ hd)] at hk
            exact ih _ hlen3 _ (hst' key next) k hk
      | shortCluster chars =>
        rw [parseLoop_cons_shortCluster st arg chars _ hcl] at hk
        refine ih _ hlen2 _ ?_ k hk
        intro k2 hk2
        rcases shortLoop_unknown_mem chars st k2 hk2 with hm | hm
        · exact hst k2 hm
        · exact hm
      | positional =>
        rw [parseLoop_cons_positional st arg _ hcl] at hk
        refine ih _ hlen2 _ ?_ k hk
        intro k2 hk2
        exact hst k2 hk2

/-! ## Well-formed invocations (recognized flags with present values) -/

/-- Raw argument sequences built only from recognized flags with present
values and no positionals: `--help`, `-h`, a value flag with a non-empty
inline value not itself starting with `=`, or a value flag followed by a
non-empty value token not starting with `-`. -/
inductive WellFormed : List String → Prop
  | nil : WellFormed []
  | helpLong (rest : List String) : WellFormed rest → WellFormed ("--help" :: rest)
  | helpShort (rest : List String) : WellFormed rest → WellFormed ("-h" :: rest)
  | inlineValue (flag v : String) (rest : List String) : flag ∈ valueFlags → v.data ≠ [] →
      v.data.head? ≠ some '=' → WellFormed rest → WellFormed ((flag ++ "=" ++ v) :: rest)
  | sepValue (flag v : String) (rest : List String) : flag ∈ valueFlags → v.data ≠ [] →
      startsDash v = false → WellFormed rest → WellFormed (flag :: v :: rest)

theorem token_inline_data (flag v : String) :
    (flag ++ "=" ++ v).data = flag.data ++ '=' :: v.data := by
  rw [String.data_append, String.data_append]
  simp

theorem valueFlag_shape (flag : String) (hf : flag ∈ valueFlags) :
    ∃ fRest : List Char, flag.data = '-' :: '-' :: fRest ∧ fRest ≠ [] ∧
      (∀ c ∈ flag.data, c ≠ '=') ∧
      ((⟨fRest⟩ : String) = "url" ∨ (⟨fRest⟩ : String) = "username" ∨
        (⟨fRest⟩ : String) = "query" ∨ (⟨fRest⟩ : String) = "output") := by
  fin_cases hf
  · exact ⟨['u', 'r', 'l'], rfl, by decide, by decide, Or.inl rfl⟩
  · exact ⟨['u', 's', 'e', 'r', 'n', 'a', 'm', 'e'], rfl, by decide, by decide,
      Or.inr (Or.inl rfl)⟩
  · exact ⟨['q', 'u', 'e', 'r', 'y'], rfl, by decide, by decide, Or.inr (Or.inr (Or.inl rfl))⟩
  · exact ⟨['o', 'u', 't', 'p', 'u', 't'], rfl, by decide, by decide,
      Or.inr (Or.inr (Or.inr rfl))⟩

theorem fmvClass_inline_skip (flag v : String) (hf : flag ∈ valueFlags)
    (hne : v.data ≠ []) (hhead : v.data.head? ≠ some '=') :
    fmvClass (flag ++ "=" ++ v) = .skip := by
  obtain ⟨fRest, hfd, hfne, hfeq, -⟩ := valueFlag_shape flag hf
  have htw : v.data.takeWhile (fun c => c != '=') ≠ [] := by
    cases hv : v.data with
    | nil => exact absurd hv hne
    | cons c cs =>
      rw [hv] at hhead
      have hc : c ≠ '=' := fun h => hhead (by subst h; rfl)
      rw [List.takeWhile_cons, if_pos (by simpa using hc)]
      simp
  have hd : (flag ++ "=" ++ v).data = '-' :: '-' :: (fRest ++ '=' :: v.data) := by
    rw [token_inline_data, hfd]
    rfl
  have hsp : splitFirstEq ('-' :: '-' :: (fRest ++ '=' :: v.data)) =
      ('-' :: '-' :: fRest, some v.data) := by
    have hnoeq : ∀ c ∈ ('-' :: '-' :: fRest : List Char), c ≠ '=' := by
      intro c hc
      exact hfeq c (hfd ▸ hc)
    have := splitFirstEq_append ('-' :: '-' :: fRest) v.data hnoeq
    simpa using this
  have hmk : (⟨'-' :: '-' :: fRest⟩ : String) = flag := by
    rw [← hfd]
  simp only [fmvClass, hd]
  rw [if_neg (by simp [hfne]), hsp]
  simp only []
  rw [if_pos (hmk ▸ hf), if_neg htw]

theorem classifyToken_inline (flag v : String) (hf : flag ∈ valueFlags) :
    ∃ key : String, classifyToken (flag ++ "=" ++ v) = .longInline key v ∧
      (key = "url" ∨ key = "username" ∨ key = "query" ∨ key = "output") := by
  obtain ⟨fRest, hfd, hfne, hfeq, hkey⟩ := valueFlag_shape flag hf
  refine ⟨⟨fRest⟩, ?_, hkey⟩
  have hd : (flag ++ "=" ++ v).data = '-' :: '-' :: (fRest ++ '=' :: v.data) := by
    rw [token_inline_data, hfd]
    rfl
  have hsp : splitFirstEq (fRest ++ '=' :: v.data) = (fRest, some v.data) :=
    splitFirstEq_append fRest v.data
      (fun c hc => hfeq c (hfd ▸ (by simp [hc] : c ∈ ('-' :: '-' :: fRest : List Char))))
  simp only [classifyToken, hd]
  rw [if_neg (by simp [hfne]), hsp]

theorem fmvClass_needsNext (flag : String) (hf : flag ∈ valueFlags) :
    fmvClass flag = .needsNext flag := by
  fin_cases hf <;> decide

theorem classifyToken_bare (flag : String) (hf : flag ∈ valueFlags) :
    ∃ key : String, classifyToken flag = .longBare key ∧ isBoolKey key = false ∧
      (key = "url" ∨ key = "username" ∨ key = "query" ∨ key = "output") := by
  fin_cases hf
  · exact ⟨"url", by decide, by decide, Or.inl rfl⟩
  · exact ⟨"username", by decide, by decide, Or.inr (Or.inl rfl)⟩
  · exact ⟨"query", by decide, by decide, Or.inr (Or.inr (Or.inl rfl))⟩
  · exact ⟨"output", by decide, by decide, Or.inr (Or.inr (Or.inr rfl))⟩

theorem applyLongKey_known (st : ParseState) (key v : String)
    (hk : key = "help" ∨ key = "h" ∨ key = "url" ∨ key = "username" ∨ key = "query" ∨
      key = "output") :
    (applyLongKey st key v).unknownKeys = st.unknownKeys ∧
      (applyLongKey st key v).positionals = st.positionals := by
  rcases hk with h | h | h | h | h | h <;> subst h
  · unfold applyLongKey
    rw [if_pos (Or.inl rfl)]
    exact ⟨rfl, rfl⟩
  · unfold applyLongKey
    rw [if_pos (Or.inr rfl)]
    exact ⟨rfl, rfl⟩
  · unfold applyLongKey
    rw [if_neg (by decide), if_pos rfl]
    exact ⟨rfl, rfl⟩
  · unfold applyLongKey
    rw [if_neg (by decide), if_neg (by decide), if_pos rfl]
    exact ⟨rfl, rfl⟩
  · unfold applyLongKey
    rw [if_neg (by decide), if_neg (by decide), if_neg (by decide), if_pos rfl]
    exact ⟨rfl, rfl⟩
  · unfold applyLongKey
    rw [if_neg (by decide), if_neg (by decide), if_neg (by decide), if_neg (by decide),
      if_pos rfl]
    exact ⟨rfl, rfl⟩

theorem shortLoop_h (st : ParseState) : shortLoop st ['h'] = { st with help := true } := by
  rw [shortLoop, if_pos rfl]
  rfl

/-- A well-formed invocation never triggers the missing-value scan. -/
theorem wellFormed_findMissingValues (args : List String) (h : WellFormed args) :
    findMissingValues args = [] := by
  induction h with
  | nil => rfl
  | helpLong rest hrest ih =>
    rw [findMissingValues_cons_skip _ _ (by decide), ih]
  | helpShort rest hrest ih =>
    rw [findMissingValues_cons_skip _ _ (by decide), ih]
  | inlineValue flag v rest hf hne hhead hrest ih =>
    rw [findMissingValues_cons_skip _ _ (fmvClass_inline_skip flag v hf hne hhead), ih]
  | sepValue flag v rest hf hne hdash hrest ih =>
    have hvne : (v == "") = false := by
      rcases hv : v.data with _ | ⟨c, cs⟩
      · exact absurd hv hne
      · have : v ≠ "" := by
          intro he
          rw [he] at hv
          exact List.noConfusion hv
        simpa using this
    rw [findMissingValues_cons_needsNext_consume flag flag v rest
      (fmvClass_needsNext flag hf) (by rw [hvne, hdash]; rfl), ih]

/-- A well-formed invocation leaves the unknown-key list and the
positional list of the flag parser untouched. -/
theorem wellFormed_parseLoop (args : List String) (h : WellFormed args) :
    ∀ st : ParseState, (parseLoop st args).unknownKeys = st.unknownKeys ∧
      (parseLoop st args).positionals = st.positionals := by
  induction h with
  | nil => exact fun st => ⟨rfl, rfl⟩
  | helpLong rest hrest ih =>
    intro st
    rw [parseLoop_cons_longBare_bool st _ "help" rest (by decide) (by decide)]
    have hk := applyLongKey_known st "help" "true" (Or.inl rfl)
    obtain ⟨h1, h2⟩ := ih (applyLongKey st "help" "true")
    exact ⟨h1.trans hk.1, h2.trans hk.2⟩
  | helpShort rest hrest ih =>
    intro st
    rw [parseLoop_cons_shortCluster st _ ['h'] rest (by decide), shortLoop_h]
    exact ih _
  | inlineValue flag v rest hf hne hhead hrest ih =>
    intro st
    obtain ⟨key, hcl, hkey⟩ := classifyToken_inline flag v hf
    rw [parseLoop_cons_longInline st _ key v rest hcl]
    have hk := applyLongKey_known st key v (by tauto)
    obtain ⟨h1, h2⟩ := ih (applyLongKey st key v)
    exact ⟨h1.trans hk.1, h2.trans hk.2⟩
  | sepValue flag v rest hf hne hdash hrest ih =>
    intro st
    obtain ⟨key, hcl, hbool, hkey⟩ := classifyToken_bare flag hf
    rw [parseLoop_cons_longBare_consume st _ key v rest hcl hbool hdash]
    have hk := applyLongKey_known st key v (by tauto)
    obtain ⟨h1, h2⟩ := ih (applyLongKey st key v)
    exact ⟨h1.trans hk.1, h2.trans hk.2⟩

/-! ## Small string helpers -/

theorem string_data_nil_iff (s : String) : s.data = [] ↔ s = "" := by
  constructor
  · intro h
    calc s = ⟨s.data⟩ := rfl
      _ = ⟨[]⟩ := by rw [h]
  · intro h
    rw [h]

theorem strTruthy_some_true (s : String) (h : s ≠ "") : strTruthy (some s) = true := by
  show (!s.data.isEmpty) = true
  have hne : s.data ≠ [] := fun hd => h ((string_data_nil_iff s).1 hd)
  cases hd : s.data with
  | nil => exact absurd hd hne
  | cons c cs => rfl

theorem strTruthy_some_append_localhost (tail : String) :
    strTruthy (some ("http://localhost/?" ++ tail)) = true := by
  apply strTruthy_some_true
  intro h
  have := congrArg String.data h
  rw [String.data_append] at this
  exact List.noConfusion this

/-! ## The claims -/

/-- C4: for every value flag, the form `--flag=` (empty inline value)
yields exactly one `Missing value for: --flag` diagnostic for that
occurrence, and the form `--flag` whose following token is absent or
starts with `-` yields the same diagnostic without consuming that token
(scanning continues at the following token). -/
theorem findMissingValues_spec (flag : String) (hf : flag ∈ valueFlags) (rest : List String) :
    findMissingValues ((flag ++ "=") :: rest) =
        missingValueMsg flag :: findMissingValues rest ∧
      findMissingValues [flag] = [missingValueMsg flag] ∧
      ∀ (next : String) (rest2 : List String), startsDash next = true →
        findMissingValues (flag :: next :: rest2) =
          missingValueMsg flag :: findMissingValues (next :: rest2) := by
  refine ⟨?_, ?_, ?_⟩
  · refine findMissingValues_cons_inlineEmpty _ flag rest ?_
    fin_cases hf <;> decide
  · refine findMissingValues_cons_needsNext_nil _ flag ?_
    fin_cases hf <;> decide
  · intro next rest2 hd
    refine findMissingValues_cons_needsNext_dash _ flag next rest2 (fmvClass_needsNext flag hf)
      ?_
    rw [hd]
    simp

/-- Witness for C4 at `--output`: the empty-inline form, the trailing
bare form, and the bare form before `-x` each yield exactly the one
diagnostic. -/
theorem findMissingValues_spec_witness :
    ("--output" ∈ valueFlags) ∧
      findMissingValues ["--output=", "-x"] = ["Missing value for: --output"] ∧
      findMissingValues ["--output"] = ["Missing value for: --output"] ∧
      findMissingValues ["--output", "-x"] = ["Missing value for: --output"] := by
  have h := findMissingValues_spec "--output" (by decide) ["-x"]
  exact ⟨by decide, h.1.trans (by decide), h.2.1, (h.2.2 "-x" [] (by decide)).trans (by decide)⟩

/-- C5 (amended): raw argument sequences made only of recognized flags
with present values — where an inline value is non-empty and does not
itself begin with `=`, and a separated value is non-empty and does not
begin with `-` — and no positionals parse with an empty `errors` list. -/
theorem parseArgs_wellFormed_no_errors (args : List String) (h : WellFormed args) :
    (parseArgs args).errors = [] := by
  obtain ⟨hu, hp⟩ := wellFormed_parseLoop args h ({} : ParseState)
  show (parseLoop {} args).unknownKeys.map (fun k => "Unknown option: --" ++ k)
      ++ (parseLoop {} args).positionals.map (fun a => "Unknown argument: " ++ a)
      ++ findMissingValues args = []
  rw [hu, hp, wellFormed_findMissingValues args h]
  rfl

/-- Witness for C5: a helper flag, a separated value, an inline value
and a short help flag parse without diagnostics. -/
theorem parseArgs_wellFormed_no_errors_witness :
    WellFormed ["--help", "--username", "bob", "--query=a b"] ∧
      (parseArgs ["--help", "--username", "bob", "--query=a b"]).errors = [] := by
  have hq : WellFormed ["--query=a b"] :=
    WellFormed.inlineValue "--query" "a b" [] (by decide) (by decide) (by decide) WellFormed.nil
  have hw : WellFormed ["--help", "--username", "bob", "--query=a b"] :=
    WellFormed.helpLong _ (WellFormed.sepValue "--username" "bob" _ (by decide) (by decide)
      (by decide) hq)
  exact ⟨hw, parseArgs_wellFormed_no_errors _ hw⟩

/-- C5 counterexample: `--url==b` is a recognized flag carrying the
present inline value `=b` (the parser stores `url = "=b"`), yet the
missing-value scan still reports `Missing value for: --url`, so the
claim as stated fails on this input. -/
theorem parseArgs_inline_eq_counterexample :
    (parseArgs ["--url==b"]).url = some "=b" ∧
      (parseArgs ["--url==b"]).errors = ["Missing value for: --url"] := by
  decide

/-- C6: parseArgs never stops at the first problem — its `errors` list
is exactly the unknown-option diagnostics (whose keys really are
unrecognized), then the unknown-argument diagnostics, then the
missing-value diagnostics of the full scan. -/
theorem parseArgs_error_order (args : List String) :
    (parseArgs args).errors =
        (unknownOptionKeys args).map (fun k => "Unknown option: --" ++ k)
          ++ (positionalArgs args).map (fun a => "Unknown argument: " ++ a)
          ++ findMissingValues args ∧
      ∀ k ∈ unknownOptionKeys args, k ∉ allowedKeys := by
  refine ⟨rfl, ?_⟩
  intro k hk
  exact parseLoop_unknown_not_allowed args.length args le_rfl {}
    (fun k2 hk2 => absurd hk2 (List.not_mem_nil k2)) k hk

theorem validatedErrors_both (args : List String)
    (hu : strTruthy (parseArgs args).url = true)
    (hn : strTruthy (parseArgs args).username = true) :
    validatedErrors args = (parseArgs args).errors ++ [bothMsg] := by
  unfold validatedErrors
  rw [hu, hn]
  simp

theorem validatedErrors_neither (args : List String)
    (hu : strTruthy (parseArgs args).url = false)
    (hn : strTruthy (parseArgs args).username = false) :
    validatedErrors args = (parseArgs args).errors ++ [neitherMsg] := by
  unfold validatedErrors
  rw [hu, hn]
  simp

/-- C1 (amended): when help is not requested and both or neither of
`--url`/`--username` are (truthily) set, run appends the corresponding
conflict or missing-required diagnostic, prints every accumulated error
one per line followed by the usage text, exits with code 1, and never
dispatches to the external handler. -/
theorem run_validation_failure (handler : String → HandlerResponse) (args : List String)
    (hh : (parseArgs args).help = false)
    (hv : (strTruthy (parseArgs args).url = true ∧ strTruthy (parseArgs args).username = true) ∨
      (strTruthy (parseArgs args).url = false ∧ strTruthy (parseArgs args).username = false)) :
    run handler args =
        (((parseArgs args).errors
            ++ [if strTruthy (parseArgs args).url then bothMsg else neitherMsg]).map
              Effect.printErr
          ++ [Effect.printOut usageText], 1) ∧
      ∀ u, Effect.dispatch u ∉ (run handler args).1 := by
  have hval : validatedErrors args =
      (parseArgs args).errors ++ [if strTruthy (parseArgs args).url then bothMsg
        else neitherMsg] := by
    rcases hv with ⟨hu, hn⟩ | ⟨hu, hn⟩
    · rw [validatedErrors_both args hu hn, hu]
      rfl
    · rw [validatedErrors_neither args hu hn, hu]
      rfl
  have hne : validatedErrors args ≠ [] := by
    rw [hval]
    simp
  have hrun := run_of_errors handler args hh hne
  rw [hval] at hrun
  refine ⟨hrun, ?_⟩
  intro u hmem
  rw [hrun] at hmem
  simp only [List.mem_append, List.mem_map, List.mem_singleton] at hmem
  rcases hmem with ⟨e, -, he⟩ | he <;> exact Effect.noConfusion he

set_option maxRecDepth 4096 in
/-- Witness for C1 at an invocation with both flags set: only the
conflict diagnostic and the usage text are printed, the exit code is 1,
and the handler is never dispatched. -/
theorem run_validation_failure_witness :
    run okHandler ["--url", "a", "--username", "b"] =
        ([Effect.printErr bothMsg, Effect.printOut usageText], 1) ∧
      ∀ u, Effect.dispatch u ∉ (run okHandler ["--url", "a", "--username", "b"]).1 := by
  have h := run_validation_failure okHandler ["--url", "a", "--username", "b"] (by decide)
    (Or.inl ⟨by decide, by decide⟩)
  exact ⟨h.1.trans (by decide), h.2⟩

/-- C1 counterexample: with `--help` present, neither `--url` nor
`--username` is set, yet run exits 0 and prints no error, so the claim
as stated (without the help proviso) fails. -/
theorem run_neither_help_counterexample :
    strTruthy (parseArgs ["--help"]).url = false ∧
      strTruthy (parseArgs ["--help"]).username = false ∧
      (run okHandler ["--help"]).2 = 0 := by
  decide

/-- C2 (amended): whenever parsing the raw arguments sets the `help`
flag (as `--help`/`-h` does when placed before any `--` terminator and
not overridden by a later `--help=false`), run prints the usage text
and exits 0, with no validation, URL building, handler dispatch, or
file writing. -/
theorem run_help_short_circuits (handler : String → HandlerResponse) (args : List String)
    (h : (parseArgs args).help = true) :
    run handler args = ([Effect.printOut usageText], 0) ∧
      (∀ u, Effect.dispatch u ∉ (run handler args).1) ∧
      ∀ p c, Effect.writeFile p c ∉ (run handler args).1 := by
  have hrun := run_of_help handler args h
  refine ⟨hrun, ?_, ?_⟩
  · intro u hmem
    rw [hrun] at hmem
    simp only [List.mem_singleton] at hmem
    exact Effect.noConfusion hmem
  · intro p c hmem
    rw [hrun] at hmem
    simp only [List.mem_singleton] at hmem
    exact Effect.noConfusion hmem

/-- Witness for C2: `--help` together with conflicting flags and a
positional still exits 0 with only the usage text. -/
theorem run_help_short_circuits_witness :
    run okHandler ["--help", "--url", "x", "--username", "y", "stray"] =
        ([Effect.printOut usageText], 0) ∧
      ∀ u, Effect.dispatch u ∉
        (run okHandler ["--help", "--url", "x", "--username", "y", "stray"]).1 := by
  have h := run_help_short_circuits okHandler ["--help", "--url", "x", "--username", "y", "stray"]
    (by decide)
  exact ⟨h.1, h.2.1⟩

/-- C2 counterexample: `--help` supplied after the `--` terminator is a
positional, so this invocation exits 1, refuting the claim that
`--help` anywhere in the raw arguments exits 0. -/
theorem run_help_after_terminator_counterexample :
    "--help" ∈ ["--", "--help"] ∧ (run okHandler ["--", "--help"]).2 = 1 := by
  decide

/-- C3 (amended): a non-empty `url` is returned verbatim; with `url`
absent or empty and `username` non-empty, the result is the fixed
placeholder host `http://localhost/` whose query parameters are
`username` first, followed by the parameters of `options.query` (after
stripping at most one leading `?`, duplicates preserved, in order),
with any extra parameter literally named `username` dropped. -/
theorem buildUrl_spec (o : Options) :
    (strTruthy o.url = true → buildUrl o = o.url) ∧
      (strTruthy o.url = false → strTruthy o.username = true →
        buildUrl o = some ("http://localhost/?" ++
            (⟨renderQS (buildParams (o.username.getD "") (o.query.getD ""))⟩ : String)) ∧
          parseQS (renderQS (buildParams (o.username.getD "") (o.query.getD ""))) =
            ("username", o.username.getD "") ::
              (parseQS (stripLeadingQuestion (o.query.getD "")).data).filter
                (fun kv => ¬ kv.1 = "username")) := by
  refine ⟨fun hu => buildUrl_of_url o hu, fun hu hn => ⟨buildUrl_of_username o hu hn, ?_⟩⟩
  rw [parseQS_renderQS]
  rfl

/-- Witness for C3: the verbatim branch on a set url, and the spec's
`alice` examples — extra parameters keep their order, and an injected
`username=mallory` is dropped. -/
theorem buildUrl_spec_witness :
    buildUrl { help := false, url := some "http://e/x?y=1", errors := [] } = some "http://e/x?y=1" ∧
      buildUrl { help := false, username := some "alice", query := some "column=-1&theme=onedark", errors := [] } = some "http://localhost/?username=alice&column=-1&theme=onedark" ∧
      parseQS (renderQS (buildParams "alice" "column=-1&theme=onedark")) =
        [("username", "alice"), ("column", "-1"), ("theme", "onedark")] ∧
      buildUrl { help := false, username := some "alice", query := some "username=mallory", errors := [] } = some "http://localhost/?username=alice" := by
  have h1 := (buildUrl_spec { help := false, url := some "http://e/x?y=1", errors := [] }).1
    (by decide)
  have h2 := (buildUrl_spec { help := false, username := some "alice", query := some "column=-1&theme=onedark", errors := [] }).2 (by decide) (by decide)
  have h3 := (buildUrl_spec { help := false, username := some "alice", query := some "username=mallory", errors := [] }).2 (by decide) (by decide)
  exact ⟨h1, h2.1.trans (by decide), h2.2.trans (by decide), h3.1.trans (by decide)⟩

/-- C3 counterexample: with `url` set to the empty string (a set but
falsy field) and a username present, buildUrl does not return
`options.url` verbatim but builds the placeholder URL, refuting the
claim for every Options with `url` set. -/
theorem buildUrl_empty_url_counterexample :
    (Options.url { help := false, url := some "", username := some "bob", errors := [] }
        ≠ none) ∧
      buildUrl { help := false, url := some "", username := some "bob", errors := [] } ≠
        Options.url { help := false, url := some "", username := some "bob", errors := [] } := by
  decide

/-- C7 (amended): a non-empty `output` is returned unchanged; otherwise
the candidate username is a non-empty `options.username`, or else the
`username` query parameter of a parseable `options.url` (an unparseable
url silently yields none); a non-empty candidate gives
`generated/<username>.svg` and anything else the fixed default
`generated/trophy.svg`. -/
theorem resolveOutputPath_spec (o : Options) :
    (strTruthy o.output = true → resolveOutputPath o = o.output.getD "") ∧
      (strTruthy o.output = false → strTruthy o.username = true →
        resolveOutputPath o = "generated/" ++ o.username.getD "" ++ ".svg") ∧
      (strTruthy o.output = false → strTruthy o.username = false → strTruthy o.url = false →
        resolveOutputPath o = "generated/trophy.svg") ∧
      (strTruthy o.output = false → strTruthy o.username = false → strTruthy o.url = true →
        resolveOutputPath o =
          (if strTruthy (urlUsernameParam (o.url.getD "")) = true then
            "generated/" ++ (urlUsernameParam (o.url.getD "")).getD "" ++ ".svg"
          else "generated/trophy.svg")) := by
  exact ⟨resolveOutputPath_of_output o, resolveOutputPath_of_username o,
    resolveOutputPath_default o, resolveOutputPath_from_url o⟩

/-- Witness for C7: the explicit output wins, the username fallback,
the unparseable-url fallback, and the bare default. -/
theorem resolveOutputPath_spec_witness :
    resolveOutputPath { help := false, output := some "out.svg", username := some "bob", errors := [] } = "out.svg" ∧
      resolveOutputPath { help := false, username := some "bob", errors := [] } =
        "generated/bob.svg" ∧
      resolveOutputPath { help := false, url := some "not a url", errors := [] } =
        "generated/trophy.svg" ∧
      resolveOutputPath { help := false, errors := [] } = "generated/trophy.svg" := by
  have h1 := (resolveOutputPath_spec { help := false, output := some "out.svg", username := some "bob", errors := [] }).1 (by decide)
  have h2 := (resolveOutputPath_spec { help := false, username := some "bob", errors := [] }).2.1 (by decide) (by decide)
  have h3 := (resolveOutputPath_spec { help := false, url := some "not a url", errors := [] }).2.2.2 (by decide) (by decide) (by decide)
  have h4 := (resolveOutputPath_spec { help := false, errors := [] }).2.2.1 (by decide)
    (by decide) (by decide)
  exact ⟨h1, h2.trans (by decide), h3.trans (by decide), h4⟩

/-- C7 counterexample: `output` set to the empty string is set but
falsy, so resolveOutputPath falls back to the username path instead of
returning it unchanged. -/
theorem resolveOutputPath_empty_output_counterexample :
    (Options.output { help := false, output := some "", username := some "bob", errors := [] } = some "") ∧
      resolveOutputPath { help := false, output := some "", username := some "bob", errors := [] } = "generated/bob.svg" := by
  decide

/-- A handler stub used by concrete evaluations: always fails. -/
def failHandler : String → HandlerResponse := fun _ => ⟨false, 500, "boom"⟩

theorem validatedErrors_of_xor (args : List String)
    (he : (parseArgs args).errors = [])
    (hx : strTruthy (parseArgs args).url ≠ strTruthy (parseArgs args).username) :
    validatedErrors args = [] := by
  unfold validatedErrors
  rw [he]
  cases hu : strTruthy (parseArgs args).url <;> cases hn : strTruthy (parseArgs args).username
  · rw [hu, hn] at hx
    exact absurd rfl hx
  · simp
  · simp
  · rw [hu, hn] at hx
    exact absurd rfl hx

/-- C8: when the handler's response has a non-success status, run
dispatches, prints the status-coded message and the body when it is
non-empty, exits with code 1, and writes nothing at the resolved output
path. -/
theorem run_handler_failure (handler : String → HandlerResponse) (args : List String)
    (url : String) (hh : (parseArgs args).help = false)
    (he : (parseArgs args).errors = [])
    (hx : strTruthy (parseArgs args).url ≠ strTruthy (parseArgs args).username)
    (hurl : buildUrl (parseArgs args) = some url) (hfail : (handler url).ok = false) :
    run handler args =
        ([Effect.dispatch url,
            Effect.printErr ("Request failed with status " ++ toString (handler url).status
              ++ ".")]
          ++ (if (handler url).body = "" then [] else [Effect.printErr (handler url).body]), 1) ∧
      ∀ c, Effect.writeFile (resolveOutputPath (parseArgs args)) c ∉ (run handler args).1 := by
  have hve := validatedErrors_of_xor args he hx
  have hrun := run_of_valid handler args hh hve url hurl
  rw [hfail] at hrun
  simp only [Bool.not_false, if_true] at hrun
  refine ⟨hrun, ?_⟩
  intro c hmem
  rw [hrun] at hmem
  simp only [List.mem_append, List.mem_cons, List.not_mem_nil, or_false] at hmem
  rcases hmem with (h | h) | h
  · exact Effect.noConfusion h
  · exact Effect.noConfusion h
  · by_cases hb : (handler url).body = ""
    · rw [if_pos hb] at h
      exact absurd h (List.not_mem_nil _)
    · rw [if_neg hb] at h
      simp only [List.mem_singleton] at h
      exact Effect.noConfusion h

/-- Witness for C8: a failing handler on `--username bob` produces the
status message and the body, exit code 1, and no file write. -/
theorem run_handler_failure_witness :
    run failHandler ["--username", "bob"] =
        ([Effect.dispatch "http://localhost/?username=bob",
          Effect.printErr "Request failed with status 500.", Effect.printErr "boom"], 1) ∧
      ∀ c, Effect.writeFile "generated/bob.svg" c ∉ (run failHandler ["--username", "bob"]).1 := by
  have h := run_handler_failure failHandler ["--username", "bob"]
    "http://localhost/?username=bob" (by decide) (by decide) (by decide) (by decide) rfl
  refine ⟨h.1.trans (by decide), ?_⟩
  have hres : resolveOutputPath (parseArgs ["--username", "bob"]) = "generated/bob.svg" := by
    decide
  intro c
  exact hres ▸ h.2 c

/-- C9 (amended): buildUrl returns `none` exactly when both `url` and
`username` are absent or empty; consequently run never produces the
output of the `Failed to build request URL.` branch. -/
theorem buildUrl_none_spec :
    (∀ o : Options, buildUrl o = none ↔
        (strTruthy o.url = false ∧ strTruthy o.username = false)) ∧
      ∀ (handler : String → HandlerResponse) (args : List String),
        (run handler args = ([Effect.printErr "Failed to build request URL."], 1)) = False := by
  refine ⟨buildUrl_none_iff_aux, ?_⟩
  intro handler args
  apply eq_false
  intro hcontra
  by_cases hh : (parseArgs args).help = true
  · rw [run_of_help handler args hh] at hcontra
    have := congrArg Prod.snd hcontra
    simp at this
  · have hh' : (parseArgs args).help = false := by
      cases h : (parseArgs args).help
      · rfl
      · exact absurd h hh
    by_cases he : validatedErrors args = []
    · have hu : (strTruthy (parseArgs args).url && strTruthy (parseArgs args).username) =
          false := by
        by_cases hb : (strTruthy (parseArgs args).url && strTruthy (parseArgs args).username) =
            true
        · exfalso
          unfold validatedErrors at he
          rw [hb] at he
          simp at he
        · cases h2 : (strTruthy (parseArgs args).url && strTruthy (parseArgs args).username)
          · rfl
          · exact absurd h2 hb
      have hn : ((!strTruthy (parseArgs args).url) && (!strTruthy (parseArgs args).username)) =
          false := by
        by_cases hb : ((!strTruthy (parseArgs args).url) &&
            (!strTruthy (parseArgs args).username)) = true
        · exfalso
          unfold validatedErrors at he
          rw [hb] at he
          simp at he
        · cases h2 : ((!strTruthy (parseArgs args).url) && (!strTruthy (parseArgs args).username))
          · rfl
          · exact absurd h2 hb
      cases hbu : buildUrl (parseArgs args) with
      | none =>
        obtain ⟨hu2, hn2⟩ := (buildUrl_none_iff_aux (parseArgs args)).1 hbu
        rw [hu2, hn2] at hn
        simp at hn
      | some url0 =>
        rw [run_of_valid handler args hh' he url0 hbu] at hcontra
        cases hok : (handler url0).ok <;> rw [hok] at hcontra <;> simp at hcontra
    · rw [run_of_errors handler args hh' he] at hcontra
      have hlen := congrArg (fun p => p.1.length) hcontra
      simp only [List.length_append, List.length_map, List.length_singleton] at hlen
      have : validatedErrors args = [] := List.length_eq_zero.1 (by omega)
      exact he this

/-- C9 counterexample: `url` set to the empty string is not absent, yet
together with an absent username buildUrl returns `none`, refuting
`none` only when both are absent. -/
theorem buildUrl_none_counterexample :
    (Options.url { help := false, url := some "", errors := [] } ≠ none) ∧
      buildUrl { help := false, url := some "", errors := [] } = none := by
  decide

/-- C10: for every non-empty username and any extra query string, the
URL that buildUrl produces from the username round-trips: resolving the
output path from an Options carrying only that URL yields
`generated/<username>.svg`, the same path as resolving directly from
the username. -/
theorem buildUrl_resolveOutputPath_roundtrip (u : String) (q : Option String) (hu : u ≠ "") :
    ∀ url : String,
      buildUrl { help := false, url := none, username := some u, query := q, output := none, errors := [] } = some url →
      resolveOutputPath { help := false, url := some url, username := none, query := none, output := none, errors := [] } = "generated/" ++ u ++ ".svg" ∧
        resolveOutputPath { help := false, url := some url, username := none, query := none, output := none, errors := [] } =
          resolveOutputPath { help := false, url := none, username := some u, query := q, output := none, errors := [] } := by
  intro url hurl
  have hnu : strTruthy (some u) = true := strTruthy_some_true u hu
  have hb := buildUrl_of_username
    { help := false, url := none, username := some u, query := q, output := none, errors := [] }
    rfl hnu
  rw [hurl] at hb
  have hb2 : url = "http://localhost/?" ++
      (⟨renderQS (buildParams u (q.getD ""))⟩ : String) := Option.some.inj hb
  have hparam : urlUsernameParam url = some u := by
    rw [hb2]
    exact urlUsernameParam_localhost u _
  have hres1 : resolveOutputPath { help := false, url := some url, username := none, query := none, output := none, errors := [] } = "generated/" ++ u ++ ".svg" := by
    have h4 := resolveOutputPath_from_url { help := false, url := some url, username := none, query := none, output := none, errors := [] } rfl rfl
      (by rw [hb2]; exact strTruthy_some_append_localhost _)
    rw [h4]
    have hproj : ({ help := false, url := some url, username := none, query := none, output := none, errors := [] } : Options).url.getD "" = url := rfl
    rw [hproj, hparam, if_pos hnu]
    rfl
  refine ⟨hres1, hres1.trans ?_⟩
  have h2 := resolveOutputPath_of_username
    { help := false, url := none, username := some u, query := q, output := none, errors := [] }
    rfl hnu
  rw [h2]
  rfl

/-- Witness for C10 at `bob` with an extra theme parameter. -/
theorem buildUrl_resolveOutputPath_roundtrip_witness :
    resolveOutputPath { help := false, url := some "http://localhost/?username=bob&theme=dark", username := none, query := none, output := none, errors := [] } = "generated/bob.svg" ∧
      resolveOutputPath { help := false, url := some "http://localhost/?username=bob&theme=dark", username := none, query := none, output := none, errors := [] } =
        resolveOutputPath { help := false, url := none, username := some "bob", query := some "theme=dark", output := none, errors := [] } := by
  have h := buildUrl_resolveOutputPath_roundtrip "bob" (some "theme=dark") (by decide)
    "http://localhost/?username=bob&theme=dark" (by decide)
  exact ⟨h.1.trans (by decide), h.2⟩
